import Mathlib

/-!
Verification of the web-API helpers of `http_util.go`

A shallow embedding of the package `util` (file `http_util.go`): the request
decoder `RequestToParams`, the success responders `OK`, `TextResponse`,
`JSONResponse`, the error responders built on `errResponse`, and `StartServer`.

Go strings and byte slices are both byte sequences and `[]byte(text)` is the
identity on them; they are embedded as `String`.  The collaborators of the host
platform that the package calls (`http.ResponseWriter`, `http.Error`,
`http.StatusText`, `strconv.ParseInt`, `fmt.Sprintf`) are embedded after their
Go definitions.  The functions of the package take the JSON codec and the
listener as parameters; `json.Marshal` and the decoder of `encoding/json` are
embedded for the structure of the package's tests, whose strings are byte
sequences that need not be valid UTF-8 (`GoString`).
-/

namespace HttpUtil

/-! ## Errors -/

/-- A Go `error` value as the responders see it: a carrier of the text that
`err.Error()` returns. -/
structure ErrorValue where
  message : String
  deriving DecidableEq, Repr

/-- The method `Error()` of a Go `error`. -/
def ErrorValue.Error (e : ErrorValue) : String := e.message

/-! ## The response sink (`http.ResponseWriter`) -/

/-- A header map, `http.Header`, with keys in canonical form: an association
list in which the entries of one key are its values. -/
abbrev Header := List (String × String)

/-- The method `Header.Set`: replaces whatever `key` held by the one value. -/
def Header.Set (h : Header) (key value : String) : Header :=
  (key, value) :: h.filter (fun p => p.1 != key)

/-- The method `Header.Get`: the first value of `key`, or the empty string. -/
def Header.Get (h : Header) (key : String) : String :=
  (h.lookup key).getD ""

/-- The state behind an `http.ResponseWriter`, after `httptest.ResponseRecorder`:
* `header` is the live map that `w.Header()` returns;
* `status` is `none` until the status line is written, then the code;
* `sent` is the copy of the header map taken when the status line was written,
  which is what goes on the wire (later changes of `header` are not sent);
* `body` holds the body bytes written so far;
* `writeErr` is the failure of the transport: when it is `some e`, every body
  write returns `e` and appends nothing. -/
structure ResponseSink where
  header : Header
  status : Option Nat
  sent : Header
  body : String
  writeErr : Option ErrorValue
  deriving DecidableEq, Repr

namespace ResponseSink

/-- A response sink on which nothing has been written or set yet. -/
def fresh (writeErr : Option ErrorValue) : ResponseSink :=
  { header := [], status := none, sent := [], body := "", writeErr := writeErr }

/-- The call `w.Header().Set(key, value)`. -/
def SetHeader (w : ResponseSink) (key value : String) : ResponseSink :=
  { w with header := w.header.Set key value }

/-- The method `WriteHeader`: writes the status line with the current headers;
a second call changes nothing. -/
def WriteHeader (w : ResponseSink) (code : Nat) : ResponseSink :=
  match w.status with
  | some _ => w
  | none => { w with status := some code, sent := w.header }

/-- The method `Write`: writes the status line with code 200 first when none was
written, then the bytes; returns the sink and the error of the write. -/
def Write (w : ResponseSink) (b : String) : ResponseSink × Option ErrorValue :=
  let w1 := match w.status with
    | some _ => w
    | none => w.WriteHeader 200
  match w1.writeErr with
  | some e => (w1, some e)
  | none => ({ w1 with body := w1.body ++ b }, none)

end ResponseSink

/-! ## `net/http` helpers -/

/-- The table `statusText` of `net/http`. -/
def statusText : List (Nat × String) :=
  [ (100, "Continue"), (101, "Switching Protocols"), (102, "Processing"),
    (103, "Early Hints"),
    (200, "OK"), (201, "Created"), (202, "Accepted"),
    (203, "Non-Authoritative Information"), (204, "No Content"),
    (205, "Reset Content"), (206, "Partial Content"), (207, "Multi-Status"),
    (208, "Already Reported"), (226, "IM Used"),
    (300, "Multiple Choices"), (301, "Moved Permanently"), (302, "Found"),
    (303, "See Other"), (304, "Not Modified"), (305, "Use Proxy"),
    (307, "Temporary Redirect"), (308, "Permanent Redirect"),
    (400, "Bad Request"), (401, "Unauthorized"), (402, "Payment Required"),
    (403, "Forbidden"), (404, "Not Found"), (405, "Method Not Allowed"),
    (406, "Not Acceptable"), (407, "Proxy Authentication Required"),
    (408, "Request Timeout"), (409, "Conflict"), (410, "Gone"),
    (411, "Length Required"), (412, "Precondition Failed"),
    (413, "Request Entity Too Large"), (414, "Request URI Too Long"),
    (415, "Unsupported Media Type"), (416, "Requested Range Not Satisfiable"),
    (417, "Expectation Failed"), (418, "I\x27m a teapot"),
    (421, "Misdirected Request"), (422, "Unprocessable Entity"), (423, "Locked"),
    (424, "Failed Dependency"), (425, "Too Early"), (426, "Upgrade Required"),
    (428, "Precondition Required"), (429, "Too Many Requests"),
    (431, "Request Header Fields Too Large"),
    (451, "Unavailable For Legal Reasons"),
    (500, "Internal Server Error"), (501, "Not Implemented"), (502, "Bad Gateway"),
    (503, "Service Unavailable"), (504, "Gateway Timeout"),
    (505, "HTTP Version Not Supported"), (506, "Variant Also Negotiates"),
    (507, "Insufficient Storage"), (508, "Loop Detected"), (510, "Not Extended"),
    (511, "Network Authentication Required") ]

/-- The function `http.StatusText`: the reason phrase of a status code, the
empty string for a code that is not in the table. -/
def StatusText (code : Nat) : String :=
  (statusText.lookup code).getD ""

/-- The function `http.Error`: sets the two headers of a plain-text error, writes
the status line and prints the message and a newline (`fmt.Fprintln`), whose
write error it drops. -/
def httpError (w : ResponseSink) (error : String) (code : Nat) : ResponseSink :=
  let w := w.SetHeader "Content-Type" "text/plain; charset=utf-8"
  let w := w.SetHeader "X-Content-Type-Options" "nosniff"
  let w := w.WriteHeader code
  (w.Write (error ++ "\n")).1

def StatusBadRequest : Nat := 400
def StatusUnauthorized : Nat := 401
def StatusForbidden : Nat := 403
def StatusNotFound : Nat := 404
def StatusMethodNotAllowed : Nat := 405
def StatusInternalServerError : Nat := 500

/-! ## The error responders -/

/-- The function `errResponse`: `err` is `none` for a nil error. -/
def errResponse (w : ResponseSink) (code : Nat) (err : Option ErrorValue) : ResponseSink :=
  let msg := StatusText code
  let msg := match err with
    | some e => msg ++ " " ++ e.Error
    | none => msg
  httpError w msg code

def BadRequest (w : ResponseSink) (err : Option ErrorValue) : ResponseSink :=
  errResponse w StatusBadRequest err

def Unauthorized (w : ResponseSink) (err : Option ErrorValue) : ResponseSink :=
  errResponse w StatusUnauthorized err

def Forbidden (w : ResponseSink) (err : Option ErrorValue) : ResponseSink :=
  errResponse w StatusForbidden err

def NotFound (w : ResponseSink) (err : Option ErrorValue) : ResponseSink :=
  errResponse w StatusNotFound err

def MethodNotAllowed (w : ResponseSink) (err : Option ErrorValue) : ResponseSink :=
  errResponse w StatusMethodNotAllowed err

def InternalServerError (w : ResponseSink) (err : Option ErrorValue) : ResponseSink :=
  errResponse w StatusInternalServerError err

/-! ## The success responders -/

/-- The function `OK`. -/
def OK (w : ResponseSink) : ResponseSink :=
  w.WriteHeader 200

/-- The function `TextResponse`. -/
def TextResponse (w : ResponseSink) (text : String) : ResponseSink :=
  let w := w.SetHeader "Content-Type" "text/plain"
  match w.Write text with
  | (w, some err) => InternalServerError w (some err)
  | (w, none) => w

/-- The function `JSONResponse`.  `data` is `none` for the nil interface value;
`marshal` is `json.Marshal` on the values of the type of `data`. -/
def JSONResponse {α : Type} (marshal : α → Except ErrorValue String)
    (w : ResponseSink) (data : Option α) : ResponseSink :=
  match data with
  | none => OK w
  | some d =>
    match marshal d with
    | .error err => InternalServerError w (some err)
    | .ok j =>
      let w := w.SetHeader "Content-Type" "application/json"
      match w.Write j with
      | (w, some err) => InternalServerError w (some err)
      | (w, none) => w

/-! ## The request decoder -/

/-- The part of an `http.Request` that the package touches: `Body` is the byte
sequence that the body stream yields, `BodyClosed` tells whether the stream has
been released (`r.Body.Close()`). -/
structure Request where
  Body : String
  BodyClosed : Bool
  deriving DecidableEq, Repr

/-- The function `RequestToParams`.  `params` is the structure that the caller
passes by pointer; `decode body t` is what `json.NewDecoder(body).Decode` does to
a target in state `t`: the error it returns (`none` for nil) and the state it
leaves the target in.  Returned are the error, the request after the deferred
`r.Body.Close()` and the target. -/
def RequestToParams {α : Type} (decode : String → α → Option ErrorValue × α)
    (r : Request) (params : α) : Option ErrorValue × Request × α :=
  let (err, t) := decode r.Body params
  (err, { r with BodyClosed := true }, t)

/-- What a handler holds while it serves one request: the request and the
response sink. -/
structure Exchange where
  request : Request
  sink : ResponseSink
  deriving DecidableEq, Repr

/-- A handler's call `RequestToParams(r, &t)`: the function is given the request
only, so the sink of the exchange is as it was. -/
def Exchange.RequestToParams {α : Type} (decode : String → α → Option ErrorValue × α)
    (x : Exchange) (params : α) : Option ErrorValue × Exchange × α :=
  let (err, r, t) := HttpUtil.RequestToParams decode x.request params
  (err, { x with request := r }, t)

/-! ## `strconv.ParseInt` and `fmt.Sprintf` -/

/-- The two sentinel errors of `strconv`. -/
inductive StrconvErr where
  | ErrSyntax
  | ErrRange
  deriving DecidableEq, Repr

/-- The type `strconv.NumError`. -/
structure NumError where
  Func : String
  Num : String
  Err : StrconvErr
  deriving DecidableEq, Repr

def syntaxError (fn str : String) : NumError :=
  { Func := fn, Num := str, Err := StrconvErr.ErrSyntax }

def rangeError (fn str : String) : NumError :=
  { Func := fn, Num := str, Err := StrconvErr.ErrRange }

/-- The helper `lower` of `strconv`: `c | ('x' - 'X')`. -/
def lower (c : Nat) : Nat := c ||| 32

/-- The value `maxVal` of `ParseUint` for bit size 32: `1<<32 - 1`. -/
def maxVal32 : Nat := 2 ^ 32 - 1

/-- The value `cutoff` of `ParseUint` for base 10: `maxUint64/10 + 1`. -/
def cutoff10 : Nat := (2 ^ 64 - 1) / 10 + 1

/-- The digit loop of `strconv.ParseUint` for base 10 and bit size 32, `n` being
the `uint64` accumulator.  A character above 127 stands for bytes above 127,
which are no digits either. -/
def parseUintLoop (fn s0 : String) : List Char → Nat → Nat × Option NumError
  | [], n => (n, none)
  | c :: cs, n =>
    let b := c.toNat
    let d : Option Nat :=
      if 48 ≤ b ∧ b ≤ 57 then some (b - 48)
      else if 97 ≤ lower b ∧ lower b ≤ 122 then some (lower b - 97 + 10)
      else none
    match d with
    | none => (0, some (syntaxError fn s0))
    | some d =>
      if d ≥ 10 then (0, some (syntaxError fn s0))
      else if n ≥ cutoff10 then (maxVal32, some (rangeError fn s0))
      else
        let n := (n * 10) % 2 ^ 64
        let n1 := (n + d) % 2 ^ 64
        if n1 < n ∨ n1 > maxVal32 then (maxVal32, some (rangeError fn s0))
        else parseUintLoop fn s0 cs n1

/-- The function `strconv.ParseUint(s, 10, 32)`. -/
def ParseUint (s : String) : Nat × Option NumError :=
  if s = "" then (0, some (syntaxError "ParseUint" s))
  else parseUintLoop "ParseUint" s s.data 0

/-- The function `strconv.ParseInt(s, 10, 32)`: the value and the error. -/
def ParseInt (s : String) : Int × Option NumError :=
  match s.data with
  | [] => (0, some (syntaxError "ParseInt" s))
  | c :: cs =>
    let neg := c = '-'
    let s1 := if c = '+' ∨ c = '-' then String.mk cs else s
    let (un, err) := ParseUint s1
    match err with
    | some e =>
      if e.Err ≠ StrconvErr.ErrRange then
        (0, some { e with Func := "ParseInt", Num := s })
      else if ¬ neg ∧ un ≥ 2 ^ 31 then ((2 : Int) ^ 31 - 1, some (rangeError "ParseInt" s))
      else if neg ∧ un > 2 ^ 31 then (-(2 : Int) ^ 31, some (rangeError "ParseInt" s))
      else (if neg then -(un : Int) else (un : Int), none)
    | none =>
      if ¬ neg ∧ un ≥ 2 ^ 31 then ((2 : Int) ^ 31 - 1, some (rangeError "ParseInt" s))
      else if neg ∧ un > 2 ^ 31 then (-(2 : Int) ^ 31, some (rangeError "ParseInt" s))
      else (if neg then -(un : Int) else (un : Int), none)

/-- The byte `'0' + d` of a decimal digit. -/
def digitByte (d : Nat) : Char := Char.ofNat (48 + d)

/-- The base-10 loop of `fmtInteger` in `fmt`: writes the digits of `u` in front
of `buf`, last digit first.  The loop of the source runs while `u >= 10`; `fuel`
bounds its rounds, and 20 rounds are more than a 64-bit value takes (with more
fuel the result is the same, `fmtDigits_fuel`). -/
def fmtDigits : Nat → Nat → List Char → List Char
  | 0, u, buf => digitByte u :: buf
  | fuel + 1, u, buf =>
    if u ≥ 10 then
      let next := u / 10
      fmtDigits fuel next (digitByte (u - next * 10) :: buf)
    else digitByte u :: buf

/-- The call `fmt.Sprintf("%d", port)` for a signed integer. -/
def formatInt (port : Int) : String :=
  if port < 0 then String.mk ('-' :: fmtDigits 20 (-port).toNat [])
  else String.mk (fmtDigits 20 port.toNat [])

/-- The values of the Go type `int32`. -/
def IsInt32 (p : Int) : Prop := -(2 : Int) ^ 31 ≤ p ∧ p ≤ (2 : Int) ^ 31 - 1

instance (p : Int) : Decidable (IsInt32 p) := by
  unfold IsInt32; infer_instance

/-! ## Starting the server -/

/-- The process environment: the value of each variable that is set. -/
abbrev Env := String → Option String

/-- Modelled from the spec: the function `GetPort` of the package, whose file is
not among the sources.  It reads the environment variable `PORT` and returns its
value as a string, the empty string when the variable is not set. -/
def GetPort (env : Env) : String :=
  (env "PORT").getD ""

/-- An `error` that `StartServer` can return. -/
inductive GoError where
  | numError (e : NumError)
  | errorValue (e : ErrorValue)
  deriving DecidableEq, Repr

/-- The HTTP runtime as `StartServer` sees it: `serve addr handler` is the error
with which `http.ListenAndServe(addr, handler)` returns, `calls` lists the calls
of `http.ListenAndServe` made so far, oldest first. -/
structure Runtime (H : Type) where
  serve : String → H → Option GoError
  calls : List (String × H)

/-- The call `http.ListenAndServe(addr, handler)`. -/
def Runtime.ListenAndServe {H : Type} (rt : Runtime H) (addr : String) (handler : H) :
    Option GoError × Runtime H :=
  (rt.serve addr handler, { rt with calls := rt.calls ++ [(addr, handler)] })

/-- The function `StartServer`: the error it returns and the runtime after it.
`port` is the `int32` default, an integer for which `IsInt32` holds. -/
def StartServer {H : Type} (env : Env) (rt : Runtime H) (port : Int) (handler : H) :
    Option GoError × Runtime H :=
  let portStr := GetPort env
  let portStr := if portStr = "" then formatInt port else portStr
  match (ParseInt portStr).2 with
  | some err => (some (GoError.numError err), rt)
  | none => rt.ListenAndServe (":" ++ portStr) handler

/-! ## `encoding/json` on the structure of the tests -/

/-- One step of a `range` loop over a Go string: a rune that the string holds
in valid UTF-8, or a byte that belongs to no valid encoding. -/
inductive GoChar where
  | rune (c : Char)
  | invalid (b : Nat)
  deriving DecidableEq, Repr

/-- A Go string where its bytes matter: the sequence of its valid runes and
invalid bytes.  A string of Lean is one that has valid runes only. -/
abbrev GoString := List GoChar

/-- The Go string of a valid UTF-8 text. -/
def GoString.ofString (s : String) : GoString := s.data.map GoChar.rune

def GoChar.isRune : GoChar → Bool
  | GoChar.rune _ => true
  | GoChar.invalid _ => false

/-- The function `utf8.ValidString`. -/
def GoString.ValidUTF8 (s : GoString) : Prop := ∀ x ∈ s, x.isRune = true

instance (s : GoString) : Decidable s.ValidUTF8 := by
  unfold GoString.ValidUTF8; infer_instance

/-- The structure `TestApiBody` of the package's tests; a slice is `none` when
it is nil. -/
structure TestApiBody where
  Int : Int
  Str : GoString
  AInt : Option (List ℤ)
  AStr : Option (List GoString)
  deriving DecidableEq, Repr

/-- The zero value of `TestApiBody`. -/
def TestApiBody.zero : TestApiBody :=
  { Int := 0, Str := [], AInt := none, AStr := none }

/-- The values of the Go type `int64`. -/
def IsInt64 (n : Int) : Prop := -(2 : Int) ^ 63 ≤ n ∧ n ≤ (2 : Int) ^ 63 - 1

instance (n : Int) : Decidable (IsInt64 n) := by
  unfold IsInt64; infer_instance

/-- The integers of a `TestApiBody` are of type `int64`. -/
def TestApiBody.WellTyped (v : TestApiBody) : Prop :=
  IsInt64 v.Int ∧ ∀ x ∈ v.AInt.getD [], IsInt64 x

instance (v : TestApiBody) : Decidable v.WellTyped := by
  unfold TestApiBody.WellTyped; infer_instance

/-- Every string of a `TestApiBody` is valid UTF-8. -/
def TestApiBody.ValidUTF8 (v : TestApiBody) : Prop :=
  v.Str.ValidUTF8 ∧ ∀ s ∈ v.AStr.getD [], GoString.ValidUTF8 s

instance (v : TestApiBody) : Decidable v.ValidUTF8 := by
  unfold TestApiBody.ValidUTF8; infer_instance

/-- The digit `hex[n]` of `encoding/json`, `hex` being `0123456789abcdef`. -/
def hexDigit (n : Nat) : Char :=
  if n < 10 then Char.ofNat (48 + n) else Char.ofNat (87 + n)

/-- The table `htmlSafeSet` of `encoding/json`, on the bytes below 128: all from
the space on but the double quote, `&`, `<`, `>` and the backslash. -/
def htmlSafeSet (b : Nat) : Bool :=
  decide (32 ≤ b) && b != 34 && b != 38 && b != 60 && b != 62 && b != 92

/-- What the string encoder of `encoding/json` (with HTML escaping, as
`json.Marshal` has it) writes for one step over the string: a safe byte as it
is, the short escapes, `\u00XX` for the other bytes below 128, `\u2028` and
`\u2029` for the two separators, `\ufffd` for a byte that is not valid UTF-8.
Go 1.22 and later write the short escapes `\b` and `\f` where this writes
`\u0008` and `\u000c`; the decoder reads both. -/
def encodeChar : GoChar → List Char
  | GoChar.invalid _ => ['\\', 'u', 'f', 'f', 'f', 'd']
  | GoChar.rune c =>
    let b := c.toNat
    if b < 128 then
      if htmlSafeSet b then [c]
      else if c = '\\' ∨ c = '"' then ['\\', c]
      else if c = '\n' then ['\\', 'n']
      else if c = '\r' then ['\\', 'r']
      else if c = '\t' then ['\\', 't']
      else ['\\', 'u', '0', '0', hexDigit (b / 16), hexDigit (b % 16)]
    else if b = 8232 ∨ b = 8233 then ['\\', 'u', '2', '0', '2', hexDigit (b % 16)]
    else [c]

def encodeChars : GoString → List Char
  | [] => []
  | x :: xs => encodeChar x ++ encodeChars xs

/-- A string as a JSON string. -/
def encodeString (s : GoString) : List Char :=
  '"' :: (encodeChars s ++ ['"'])

/-- An `int64` as a JSON number, the decimal digits of `strconv.AppendInt`. -/
def encodeInt (n : Int) : List Char := (formatInt n).data

/-- The elements of a JSON array, with commas between them. -/
def encodeElems {α : Type} (enc : α → List Char) : List α → List Char
  | [] => []
  | [x] => enc x
  | x :: y :: ys => enc x ++ ',' :: encodeElems enc (y :: ys)

/-- A slice as JSON: `null` for the nil slice, an array otherwise. -/
def encodeSlice {α : Type} (enc : α → List Char) : Option (List α) → List Char
  | none => ['n', 'u', 'l', 'l']
  | some xs => '[' :: (encodeElems enc xs ++ [']'])

/-- The text that `json.Marshal` writes for a `TestApiBody`: an object with the
four fields under their JSON names, in the order of the structure. -/
def encodeBody (v : TestApiBody) : List Char :=
  '\x7b' :: (encodeString (GoString.ofString "i_64") ++ ':' :: encodeInt v.Int
    ++ ',' :: encodeString (GoString.ofString "str") ++ ':' :: encodeString v.Str
    ++ ',' :: encodeString (GoString.ofString "a_int") ++ ':' :: encodeSlice encodeInt v.AInt
    ++ ',' :: encodeString (GoString.ofString "a_str") ++ ':' :: encodeSlice encodeString v.AStr
    ++ ['\x7d'])

/-- The function `json.Marshal` on a `TestApiBody`, which it never refuses. -/
def Marshal (v : TestApiBody) : Except ErrorValue String :=
  Except.ok (String.mk (encodeBody v))

/-- The white space of JSON. -/
def isSpace (c : Char) : Bool :=
  c = ' ' ∨ c = '\t' ∨ c = '\r' ∨ c = '\n'

def skipSpace : List Char → List Char
  | [] => []
  | c :: cs => if isSpace c then skipSpace cs else c :: cs

/-- The literal `null` at the head of the input: what follows it. -/
def stripNull : List Char → Option (List Char)
  | 'n' :: 'u' :: 'l' :: 'l' :: rest => some rest
  | _ => none

def isDigit (c : Char) : Bool := decide (48 ≤ c.toNat) && decide (c.toNat ≤ 57)

/-- Reads the decimal digits at the head of the input into the number `n`. -/
def readDigits : List Char → Nat → Nat × List Char
  | [], n => (n, [])
  | c :: cs, n => if isDigit c then readDigits cs (n * 10 + (c.toNat - 48)) else (n, c :: cs)

/-- The integer part of a JSON number: a lone `0`, or digits that start with
another digit. -/
def readNat : List Char → Option (Nat × List Char)
  | [] => none
  | c :: cs =>
    if c = '0' then some (0, cs)
    else if isDigit c then some (readDigits cs (c.toNat - 48))
    else none

/-- A JSON number read into an `int64`: an optional minus sign and the integer
part, within the range of the type. -/
def readInt64 : List Char → Option (Int × List Char)
  | [] => none
  | c :: cs =>
    if c = '-' then
      match readNat cs with
      | some (n, rest) => if n ≤ 2 ^ 63 then some (-(n : Int), rest) else none
      | none => none
    else
      match readNat (c :: cs) with
      | some (n, rest) => if n < 2 ^ 63 then some ((n : Int), rest) else none
      | none => none

/-- The value of a hexadecimal digit. -/
def hexVal (c : Char) : Option Nat :=
  let b := c.toNat
  if 48 ≤ b ∧ b ≤ 57 then some (b - 48)
  else if 97 ≤ b ∧ b ≤ 102 then some (b - 97 + 10)
  else if 65 ≤ b ∧ b ≤ 70 then some (b - 65 + 10)
  else none

/-- The number that four hexadecimal digits write. -/
def hex4 (a b c d : Char) : Option Nat :=
  match hexVal a, hexVal b, hexVal c, hexVal d with
  | some x, some y, some z, some w => some (((x * 16 + y) * 16 + z) * 16 + w)
  | _, _, _, _ => none

/-- The function `getu4`: the number of a `\uXXXX` at the head of the input. -/
def getu4 : List Char → Option Nat
  | '\\' :: 'u' :: a :: b :: c :: d :: _ => hex4 a b c d
  | _ => none

/-- The function `utf16.DecodeRune`: the rune of a surrogate pair, the
replacement character for anything else. -/
def decodeSurrogates (r1 r2 : Nat) : Char :=
  if 55296 ≤ r1 ∧ r1 < 56320 ∧ 56320 ≤ r2 ∧ r2 < 57344 then
    Char.ofNat ((r1 - 55296) * 1024 + (r2 - 56320) + 65536)
  else Char.ofNat 65533

/-- The character that a one-letter escape stands for. -/
def unescape (e : Char) : Option Char :=
  if e = '"' then some '"'
  else if e = '\\' then some '\\'
  else if e = '/' then some '/'
  else if e = 'b' then some (Char.ofNat 8)
  else if e = 'f' then some (Char.ofNat 12)
  else if e = 'n' then some '\n'
  else if e = 'r' then some '\r'
  else if e = 't' then some '\t'
  else none

/-- Puts a rune in front of what was read after it. -/
def consRune (c : Char) : Option (GoString × List Char) → Option (GoString × List Char)
  | some (s, rest) => some (GoChar.rune c :: s, rest)
  | none => none

/-- Puts the replacement character in front of what is read next when a
surrogate is left without its partner. -/
def flushPending (pending : Option Nat) (r : Option (GoString × List Char)) :
    Option (GoString × List Char) :=
  match pending with
  | some _ => consRune (Char.ofNat 65533) r
  | none => r

/-- Reads a JSON string after its opening quote, as `unquote` of
`encoding/json` does: up to the closing quote, with the escapes replaced.
`pending` is the surrogate of a `\uXXXX` just read, which makes one rune with
the `\uXXXX` that follows it when the two are a pair and is the replacement
character otherwise. -/
def readStringFrom : Option Nat → List Char → Option (GoString × List Char)
  | _, [] => none
  | pending, c :: rest =>
    if c = '"' then flushPending pending (some ([], rest))
    else if c = '\\' then
      match rest with
      | [] => none
      | e :: rest1 =>
        if e = 'u' then
          match rest1 with
          | a :: b :: x :: d :: rest2 =>
            match hex4 a b x d with
            | none => none
            | some rr =>
              match pending with
              | some r1 =>
                if decodeSurrogates r1 rr ≠ Char.ofNat 65533 then
                  consRune (decodeSurrogates r1 rr) (readStringFrom none rest2)
                else if 55296 ≤ rr ∧ rr < 57344 then
                  consRune (Char.ofNat 65533) (readStringFrom (some rr) rest2)
                else
                  consRune (Char.ofNat 65533)
                    (consRune (Char.ofNat rr) (readStringFrom none rest2))
              | none =>
                if 55296 ≤ rr ∧ rr < 57344 then readStringFrom (some rr) rest2
                else consRune (Char.ofNat rr) (readStringFrom none rest2)
          | _ => none
        else
          match unescape e with
          | some ch => flushPending pending (consRune ch (readStringFrom none rest1))
          | none => none
    else if c.toNat < 32 then none
    else flushPending pending (consRune c (readStringFrom none rest))

/-- Reads a JSON string after its opening quote. -/
def readStringBody (cs : List Char) : Option (GoString × List Char) :=
  readStringFrom none cs

/-- A JSON string with its opening quote. -/
def readString : List Char → Option (GoString × List Char)
  | [] => none
  | c :: rest => if c = '"' then readStringBody rest else none

/-- An element of a slice of `int64`: `null` leaves the zero value. -/
def readIntElem (cs : List Char) : Option (Int × List Char) :=
  match stripNull cs with
  | some rest => some (0, rest)
  | none => readInt64 cs

/-- An element of a slice of strings: `null` leaves the zero value. -/
def readStringElem (cs : List Char) : Option (GoString × List Char) :=
  match stripNull cs with
  | some rest => some ([], rest)
  | none => readString cs

/-- The elements of a non-empty JSON array up to its closing bracket; `fuel`
bounds their number. -/
def readElems {α : Type} (readElem : List Char → Option (α × List Char)) :
    Nat → List Char → Option (List α × List Char)
  | 0, _ => none
  | fuel + 1, cs =>
    match readElem cs with
    | none => none
    | some (x, rest) =>
      match skipSpace rest with
      | [] => none
      | c :: rest1 =>
        if c = ',' then
          match readElems readElem fuel (skipSpace rest1) with
          | some (xs, r) => some (x :: xs, r)
          | none => none
        else if c = ']' then some ([x], rest1)
        else none

/-- A JSON value read into a slice: `null` gives the nil slice, an array a slice
of its elements. -/
def readSlice {α : Type} (readElem : List Char → Option (α × List Char))
    (cs : List Char) : Option (Option (List α) × List Char) :=
  match stripNull cs with
  | some rest => some (none, rest)
  | none =>
    match cs with
    | [] => none
    | c :: rest =>
      if c = '[' then
        match skipSpace rest with
        | [] => none
        | d :: rest1 =>
          if d = ']' then some (some [], rest1)
          else
            match readElems readElem (d :: rest1).length (d :: rest1) with
            | some (xs, r) => some (some xs, r)
            | none => none
      else none

/-- The value of the member `key` read into the field of that JSON name;
`null` leaves an integer or a string as it is. -/
def readField (key : GoString) (cs : List Char) (t : TestApiBody) :
    Option (TestApiBody × List Char) :=
  if key = GoString.ofString "i_64" then
    match stripNull cs with
    | some rest => some (t, rest)
    | none =>
      match readInt64 cs with
      | some (n, rest) => some ({ t with Int := n }, rest)
      | none => none
  else if key = GoString.ofString "str" then
    match stripNull cs with
    | some rest => some (t, rest)
    | none =>
      match readString cs with
      | some (s, rest) => some ({ t with Str := s }, rest)
      | none => none
  else if key = GoString.ofString "a_int" then
    match readSlice readIntElem cs with
    | some (xs, rest) => some ({ t with AInt := xs }, rest)
    | none => none
  else if key = GoString.ofString "a_str" then
    match readSlice readStringElem cs with
    | some (xs, rest) => some ({ t with AStr := xs }, rest)
    | none => none
  else none

/-- The members of a non-empty JSON object up to its closing brace, each read
into the field of its name; `fuel` bounds their number. -/
def readMembers : Nat → List Char → TestApiBody → Option (TestApiBody × List Char)
  | 0, _, _ => none
  | fuel + 1, cs, t =>
    match readString cs with
    | none => none
    | some (key, rest) =>
      match skipSpace rest with
      | [] => none
      | c :: rest1 =>
        if c = ':' then
          match readField key (skipSpace rest1) t with
          | none => none
          | some (t1, rest2) =>
            match skipSpace rest2 with
            | [] => none
            | d :: rest3 =>
              if d = ',' then readMembers fuel (skipSpace rest3) t1
              else if d = '\x7d' then some (t1, rest3)
              else none
        else none

/-- The error of the decoder for a document that it does not accept. -/
def errDocument : ErrorValue := ⟨"json: document not accepted"⟩

/-- The call `json.NewDecoder(body).Decode(&params)` with a pointer to a
`TestApiBody` in `params`, on the documents that `json.Marshal` writes for that
structure and their like: white space between the tokens, the members in any
order and repeated, `null` for a value, text after the document (which stays
unread).  An empty input gives the error `EOF`.  Outside the model are members
of other names, names in another letter case, values of another JSON type and
the fields filled before an error: such a document gives `errDocument` and the
target as it was. -/
def Decode (body : String) (t : TestApiBody) : Option ErrorValue × TestApiBody :=
  match skipSpace body.data with
  | [] => (some ⟨"EOF"⟩, t)
  | c :: rest =>
    if c = '\x7b' then
      match skipSpace rest with
      | [] => (some errDocument, t)
      | d :: rest1 =>
        if d = '\x7d' then (none, t)
        else
          match readMembers (d :: rest1).length (d :: rest1) t with
          | some (t1, _) => (none, t1)
          | none => (some errDocument, t)
    else
      match stripNull (c :: rest) with
      | some _ => (none, t)
      | none => (some errDocument, t)

/-! ## The claims' own vocabulary -/

/-- The body of an error response as the specification words it: the reason
phrase and a newline, with a space and the error's message between the two when
there is an error. -/
def specErrorBody (phrase : String) (err : Option ErrorValue) : String :=
  match err with
  | none => phrase ++ "\n"
  | some e => phrase ++ " " ++ e.message ++ "\n"

/-- The value `td` of `TestRequestToParams`. -/
def td : TestApiBody :=
  { Int := -1, Str := GoString.ofString "test", AInt := some [1, 2, 3],
    AStr := some [GoString.ofString "one", GoString.ofString "two",
      GoString.ofString "three"] }

/-- A `TestApiBody` whose string is the one byte `0xff`, which is not valid
UTF-8; the rest is zero. -/
def tdInvalid : TestApiBody :=
  { Int := 0, Str := [GoChar.invalid 255], AInt := none, AStr := none }

/-- The JSON text of `td`. -/
def tdJSON : String :=
  "\x7b\"i_64\":-1,\"str\":\"test\",\"a_int\":[1,2,3],\"a_str\":[\"one\",\"two\",\"three\"]\x7d"

/-- A serializer that knows the one value the tests send: `td` goes to `tdJSON`,
anything else is refused. -/
def tdMarshal (v : TestApiBody) : Except ErrorValue String :=
  if v = td then Except.ok tdJSON else Except.error ⟨"json: unsupported value"⟩

/-- A decoder that knows the one document the tests send: `tdJSON` fills the
target with `td`, an empty body is the error `EOF`, anything else is refused. -/
def tdDecode (body : String) (t : TestApiBody) : Option ErrorValue × TestApiBody :=
  if body = tdJSON then (none, td)
  else if body = "" then (some ⟨"EOF"⟩, t)
  else (some ⟨"invalid character"⟩, t)

/-- The port string that `StartServer` settles on: the value of `PORT` when it
is set and not empty, the default in decimal otherwise. -/
def chosenPort (env : Env) (port : Int) : String :=
  if GetPort env = "" then formatInt port else GetPort env

/-- An environment in which no variable is set. -/
def envUnset : Env := fun _ => none

/-- An environment in which `PORT` is set to `v` and nothing else is set. -/
def envPort (v : String) : Env := fun k => if k = "PORT" then some v else none

/-- A runtime that has served nothing yet and whose listener ends with the
error `http: Server closed`; handlers are told apart by a name. -/
def rtIdle : Runtime String :=
  { serve := fun _ _ => some (GoError.errorValue ⟨"http: Server closed"⟩), calls := [] }

/-- The input does not go on with a decimal digit. -/
def NoDigitHead (rest : List Char) : Prop :=
  ∀ c cs, rest = c :: cs → isDigit c = false

/-- The text starts with a character that opens a JSON number or string. -/
def ValueHead (l : List Char) : Prop :=
  ∃ c cs, l = c :: cs ∧ (c = '-' ∨ c = '"' ∨ isDigit c = true)

/-! ## Lemmas on the response sink -/

theorem errResponse_of_open (w : ResponseSink) (code : Nat) (err : Option ErrorValue)
    (hs : w.status = none) (hw : w.writeErr = none) :
    errResponse w code err =
      { header := (w.header.Set "Content-Type" "text/plain; charset=utf-8").Set
          "X-Content-Type-Options" "nosniff",
        status := some code,
        sent := (w.header.Set "Content-Type" "text/plain; charset=utf-8").Set
          "X-Content-Type-Options" "nosniff",
        body := w.body ++ (StatusText code ++ (match err with
          | some e => " " ++ e.message
          | none => "") ++ "\n"),
        writeErr := none } := by
  cases err <;>
    simp [errResponse, httpError, ResponseSink.SetHeader, ResponseSink.WriteHeader,
      ResponseSink.Write, hs, hw, ErrorValue.Error, String.append_assoc]

theorem errResponse_fresh (code : Nat) (err : Option ErrorValue) :
    (errResponse (ResponseSink.fresh none) code err).status = some code ∧
    (errResponse (ResponseSink.fresh none) code err).body
      = specErrorBody (StatusText code) err := by
  rw [errResponse_of_open _ _ _ rfl rfl]
  cases err <;> simp [specErrorBody, ResponseSink.fresh, String.append_assoc]

theorem errResponse_header (w : ResponseSink) (code : Nat) (err : Option ErrorValue) :
    (errResponse w code err).header.Get "X-Content-Type-Options" = "nosniff" := by
  simp only [errResponse, httpError, ResponseSink.SetHeader, ResponseSink.WriteHeader,
    ResponseSink.Write]
  cases w.status <;> cases w.writeErr <;> simp [Header.Get, Header.Set, List.lookup]

theorem errResponse_status (f : Option ErrorValue) (code : Nat) (err : Option ErrorValue) :
    (errResponse (ResponseSink.fresh f) code err).status = some code := by
  simp only [errResponse, httpError, ResponseSink.SetHeader, ResponseSink.WriteHeader,
    ResponseSink.Write, ResponseSink.fresh]
  cases f <;> rfl

/-! ## Claims on the responders -/

/-- C1: each of the six public error wrappers, called on a fresh response sink
with any optional error, writes its status code and the body made of the reason
phrase, then a space and the error's message when there is an error (whatever
the message, the empty one too), then a newline; the reason phrases of 400, 401,
403, 404, 405 and 500 are the six standard ones.  The fresh sink is one whose
body writes succeed; the status code is written on a failing one as well. -/
theorem C1_error_wrappers (err : Option ErrorValue) :
    ((BadRequest (ResponseSink.fresh none) err).status = some 400 ∧
      (BadRequest (ResponseSink.fresh none) err).body = specErrorBody "Bad Request" err) ∧
    ((Unauthorized (ResponseSink.fresh none) err).status = some 401 ∧
      (Unauthorized (ResponseSink.fresh none) err).body = specErrorBody "Unauthorized" err) ∧
    ((Forbidden (ResponseSink.fresh none) err).status = some 403 ∧
      (Forbidden (ResponseSink.fresh none) err).body = specErrorBody "Forbidden" err) ∧
    ((NotFound (ResponseSink.fresh none) err).status = some 404 ∧
      (NotFound (ResponseSink.fresh none) err).body = specErrorBody "Not Found" err) ∧
    ((MethodNotAllowed (ResponseSink.fresh none) err).status = some 405 ∧
      (MethodNotAllowed (ResponseSink.fresh none) err).body
        = specErrorBody "Method Not Allowed" err) ∧
    ((InternalServerError (ResponseSink.fresh none) err).status = some 500 ∧
      (InternalServerError (ResponseSink.fresh none) err).body
        = specErrorBody "Internal Server Error" err) ∧
    (StatusText 400 = "Bad Request" ∧ StatusText 401 = "Unauthorized" ∧
      StatusText 403 = "Forbidden" ∧ StatusText 404 = "Not Found" ∧
      StatusText 405 = "Method Not Allowed" ∧ StatusText 500 = "Internal Server Error") ∧
    (∀ m : String, specErrorBody "Not Found" (some ⟨m⟩) = "Not Found" ++ " " ++ m ++ "\n") ∧
    specErrorBody "Bad Request" none = "Bad Request\n" ∧
    (∀ f : Option ErrorValue,
      (BadRequest (ResponseSink.fresh f) err).status = some 400 ∧
      (Unauthorized (ResponseSink.fresh f) err).status = some 401 ∧
      (Forbidden (ResponseSink.fresh f) err).status = some 403 ∧
      (NotFound (ResponseSink.fresh f) err).status = some 404 ∧
      (MethodNotAllowed (ResponseSink.fresh f) err).status = some 405 ∧
      (InternalServerError (ResponseSink.fresh f) err).status = some 500) := by
  have h400 : StatusText 400 = "Bad Request" := by decide
  have h401 : StatusText 401 = "Unauthorized" := by decide
  have h403 : StatusText 403 = "Forbidden" := by decide
  have h404 : StatusText 404 = "Not Found" := by decide
  have h405 : StatusText 405 = "Method Not Allowed" := by decide
  have h500 : StatusText 500 = "Internal Server Error" := by decide
  refine ⟨?_, ?_, ?_, ?_, ?_, ?_, ⟨h400, h401, h403, h404, h405, h500⟩, fun m => rfl, rfl,
    fun f => ⟨errResponse_status f 400 err, errResponse_status f 401 err,
      errResponse_status f 403 err, errResponse_status f 404 err,
      errResponse_status f 405 err, errResponse_status f 500 err⟩⟩
  · simpa [BadRequest, StatusBadRequest, h400] using errResponse_fresh 400 err
  · simpa [Unauthorized, StatusUnauthorized, h401] using errResponse_fresh 401 err
  · simpa [Forbidden, StatusForbidden, h403] using errResponse_fresh 403 err
  · simpa [NotFound, StatusNotFound, h404] using errResponse_fresh 404 err
  · simpa [MethodNotAllowed, StatusMethodNotAllowed, h405] using errResponse_fresh 405 err
  · simpa [InternalServerError, StatusInternalServerError, h500] using errResponse_fresh 500 err

/-- C3: for a non-nil value that the serializer turns into the bytes `j`,
`JSONResponse` on a fresh response sink whose body write succeeds leaves status
200, the body `j` and nothing else, and the header `Content-Type:
application/json` both in the header map and in the headers written with the
status line, that is before any body byte; nothing of an error response is
there (no status 500, no `X-Content-Type-Options`, a state that no call of
`InternalServerError` ends in), and a decoder that gives the value back on `j`
gives it back on the body. -/
theorem C3_json_response {α : Type} (marshal : α → Except ErrorValue String)
    (d : α) (j : String) (hj : marshal d = Except.ok j) :
    JSONResponse marshal (ResponseSink.fresh none) (some d) =
      { header := [("Content-Type", "application/json")],
        status := some 200,
        sent := [("Content-Type", "application/json")],
        body := j,
        writeErr := none } ∧
    (JSONResponse marshal (ResponseSink.fresh none) (some d)).sent.Get "Content-Type"
      = "application/json" ∧
    (JSONResponse marshal (ResponseSink.fresh none) (some d)).header.Get
      "X-Content-Type-Options" = "" ∧
    (JSONResponse marshal (ResponseSink.fresh none) (some d)).status ≠ some 500 ∧
    (∀ (w : ResponseSink) (err : Option ErrorValue),
      JSONResponse marshal (ResponseSink.fresh none) (some d) ≠ InternalServerError w err) ∧
    ∀ (decode : String → α → Option ErrorValue × α) (t : α),
      decode j t = (none, d) →
      decode (JSONResponse marshal (ResponseSink.fresh none) (some d)).body t = (none, d) := by
  have h : JSONResponse marshal (ResponseSink.fresh none) (some d) =
      { header := [("Content-Type", "application/json")],
        status := some 200,
        sent := [("Content-Type", "application/json")],
        body := j,
        writeErr := none } := by
    simp [JSONResponse, hj, ResponseSink.SetHeader, ResponseSink.Write,
      ResponseSink.WriteHeader, ResponseSink.fresh, Header.Set]
  have hno : ∀ (w : ResponseSink) (err : Option ErrorValue),
      JSONResponse marshal (ResponseSink.fresh none) (some d) ≠ InternalServerError w err := by
    intro w err heq
    have hx := errResponse_header w StatusInternalServerError err
    rw [← InternalServerError, ← heq, h] at hx
    revert hx
    dsimp only
    decide
  refine ⟨h, ?_, ?_, ?_, hno, ?_⟩
  · rw [h]; dsimp only; decide
  · rw [h]; dsimp only; decide
  · rw [h]; dsimp only; decide
  · intro decode t ht
    rw [h]
    exact ht

/-- C4: on every response sink `JSONResponse` with a nil value leaves exactly
the state that `OK` leaves (status, headers, body), whatever the serializer is,
so the serializer plays no part, and the header map is the one it found. -/
theorem C4_json_nil_is_ok {α : Type} (marshal : α → Except ErrorValue String)
    (w : ResponseSink) :
    JSONResponse marshal w none = OK w ∧
    (∀ marshal2 : α → Except ErrorValue String,
      JSONResponse marshal2 w none = JSONResponse marshal w none) ∧
    (JSONResponse marshal w none).header = w.header ∧
    (JSONResponse marshal w none).body = w.body := by
  refine ⟨rfl, fun _ => rfl, ?_, ?_⟩ <;>
    simp only [JSONResponse, OK, ResponseSink.WriteHeader] <;> cases w.status <;> rfl

/-- C5: `OK` on a fresh response sink writes status 200 and no body byte, and
leaves the header map as it was, so without a `Content-Type`; on any sink it
leaves header map and body untouched. -/
theorem C5_ok_fresh (f : Option ErrorValue) :
    OK (ResponseSink.fresh f) =
      { header := [], status := some 200, sent := [], body := "", writeErr := f } ∧
    (OK (ResponseSink.fresh f)).body.length = 0 ∧
    (OK (ResponseSink.fresh f)).header.Get "Content-Type" = "" ∧
    (OK (ResponseSink.fresh f)).sent.Get "Content-Type" = "" ∧
    ∀ w : ResponseSink, (OK w).header = w.header ∧ (OK w).body = w.body := by
  refine ⟨rfl, rfl, rfl, rfl, fun w => ?_⟩
  simp only [OK, ResponseSink.WriteHeader]
  cases w.status <;> exact ⟨rfl, rfl⟩

/-- C6: for every string `text`, `TextResponse` on a fresh response sink whose
body write succeeds leaves status 200, the body `text` with nothing added, and
the header `Content-Type: text/plain` both in the header map and in the headers
written with the status line, that is before the body; nothing of
`InternalServerError` is there (no status 500, no `X-Content-Type-Options`, the
content type not replaced, a state that no call of `InternalServerError` ends
in). -/
theorem C6_text_response (text : String) :
    TextResponse (ResponseSink.fresh none) text =
      { header := [("Content-Type", "text/plain")],
        status := some 200,
        sent := [("Content-Type", "text/plain")],
        body := text,
        writeErr := none } ∧
    (TextResponse (ResponseSink.fresh none) text).sent.Get "Content-Type" = "text/plain" ∧
    (TextResponse (ResponseSink.fresh none) text).header.Get "X-Content-Type-Options" = "" ∧
    (TextResponse (ResponseSink.fresh none) text).status ≠ some 500 ∧
    (∀ (w : ResponseSink) (err : Option ErrorValue),
      TextResponse (ResponseSink.fresh none) text ≠ InternalServerError w err) ∧
    (TextResponse (ResponseSink.fresh none) text).body.length = text.length := by
  have h : TextResponse (ResponseSink.fresh none) text =
      { header := [("Content-Type", "text/plain")],
        status := some 200,
        sent := [("Content-Type", "text/plain")],
        body := text,
        writeErr := none } := by
    simp [TextResponse, ResponseSink.SetHeader, ResponseSink.Write,
      ResponseSink.WriteHeader, ResponseSink.fresh, Header.Set]
  have hno : ∀ (w : ResponseSink) (err : Option ErrorValue),
      TextResponse (ResponseSink.fresh none) text ≠ InternalServerError w err := by
    intro w err heq
    have hx := errResponse_header w StatusInternalServerError err
    rw [← InternalServerError, ← heq, h] at hx
    revert hx
    dsimp only
    decide
  refine ⟨h, ?_, ?_, ?_, hno, ?_⟩
  · rw [h]; dsimp only; decide
  · rw [h]; dsimp only; decide
  · rw [h]; dsimp only; decide
  · rw [h]

/-- Witness of C3 on the value of the tests. -/
theorem C3_json_response_witness :
    tdMarshal td = Except.ok tdJSON ∧
    JSONResponse tdMarshal (ResponseSink.fresh none) (some td) =
      { header := [("Content-Type", "application/json")],
        status := some 200,
        sent := [("Content-Type", "application/json")],
        body := tdJSON,
        writeErr := none } :=
  ⟨rfl, (C3_json_response tdMarshal td tdJSON rfl).1⟩

/-! ## Claims on the request decoder -/

/-- C9 as stated fails for the decoder: `RequestToParams` on an empty body fails
with the error `EOF`, which it returns to its caller, and the response sink of
the exchange is still fresh: no status, no body byte, hence neither status 500
nor the body `Internal Server Error EOF`. -/
theorem C9_decode_error_not_surfaced :
    (Exchange.RequestToParams tdDecode
        { request := { Body := "", BodyClosed := false }, sink := ResponseSink.fresh none }
        TestApiBody.zero).1 = some ⟨"EOF"⟩ ∧
    (Exchange.RequestToParams tdDecode
        { request := { Body := "", BodyClosed := false }, sink := ResponseSink.fresh none }
        TestApiBody.zero).2.1.sink = ResponseSink.fresh none ∧
    (Exchange.RequestToParams tdDecode
        { request := { Body := "", BodyClosed := false }, sink := ResponseSink.fresh none }
        TestApiBody.zero).2.1.sink.status ≠ some 500 ∧
    (Exchange.RequestToParams tdDecode
        { request := { Body := "", BodyClosed := false }, sink := ResponseSink.fresh none }
        TestApiBody.zero).2.1.sink.body ≠ "Internal Server Error EOF\n" := by
  refine ⟨by decide, by decide, by decide, by decide⟩

/-- C9, amended: when `JSONResponse` fails to serialize its value with error
`e`, a fresh response sink whose body write succeeds receives status 500, the
plain-text content type and the body `Internal Server Error `, the message of
`e` and a newline; `RequestToParams` writes to no sink: it returns the decoder's
error to its caller and the sink of the exchange is as it was. -/
theorem C9_serialize_error_surfaced {α : Type} (marshal : α → Except ErrorValue String)
    (d : α) (e : ErrorValue) (he : marshal d = Except.error e) :
    (JSONResponse marshal (ResponseSink.fresh none) (some d)).status = some 500 ∧
    (JSONResponse marshal (ResponseSink.fresh none) (some d)).body
      = "Internal Server Error " ++ e.message ++ "\n" ∧
    (JSONResponse marshal (ResponseSink.fresh none) (some d)).sent.Get "Content-Type"
      = "text/plain; charset=utf-8" ∧
    ∀ (decode : String → α → Option ErrorValue × α) (x : Exchange) (t : α),
      (x.RequestToParams decode t).1 = (decode x.request.Body t).1 ∧
      (x.RequestToParams decode t).2.1.sink = x.sink := by
  have h : JSONResponse marshal (ResponseSink.fresh none) (some d)
      = errResponse (ResponseSink.fresh none) 500 (some e) := by
    simp [JSONResponse, he, InternalServerError, StatusInternalServerError]
  have h500 : StatusText 500 = "Internal Server Error" := by decide
  refine ⟨?_, ?_, ?_, fun decode x t => ⟨rfl, rfl⟩⟩
  · rw [h]; exact (errResponse_fresh 500 (some e)).1
  · rw [h, (errResponse_fresh 500 (some e)).2, h500]; rfl
  · rw [h, errResponse_of_open _ _ _ rfl rfl]; dsimp only; decide

/-- Witness of C9, amended: a value that the serializer refuses. -/
theorem C9_serialize_error_surfaced_witness :
    tdMarshal TestApiBody.zero = Except.error ⟨"json: unsupported value"⟩ ∧
    (JSONResponse tdMarshal (ResponseSink.fresh none) (some TestApiBody.zero)).status
      = some 500 ∧
    (JSONResponse tdMarshal (ResponseSink.fresh none) (some TestApiBody.zero)).body
      = "Internal Server Error json: unsupported value\n" :=
  ⟨rfl,
    (C9_serialize_error_surfaced tdMarshal TestApiBody.zero ⟨"json: unsupported value"⟩ rfl).1,
    (C9_serialize_error_surfaced tdMarshal TestApiBody.zero ⟨"json: unsupported value"⟩ rfl).2.1⟩

/-! ## Lemmas on formatting and parsing a port -/

theorem digitByte_toNat (d : Nat) (hd : d < 10) : (digitByte d).toNat = 48 + d := by
  interval_cases d <;> rfl

theorem digitByte_ne_sign (d : Nat) (hd : d < 10) :
    digitByte d ≠ '+' ∧ digitByte d ≠ '-' := by
  interval_cases d <;> decide

theorem fmtDigits_append (fuel u : Nat) (buf : List Char) :
    fmtDigits fuel u buf = fmtDigits fuel u [] ++ buf := by
  induction fuel generalizing u buf with
  | zero => simp [fmtDigits]
  | succ k ih =>
    unfold fmtDigits
    by_cases h : u ≥ 10
    · simp only [h, if_true]
      rw [ih (u / 10) (digitByte (u - u / 10 * 10) :: buf),
        ih (u / 10) [digitByte (u - u / 10 * 10)]]
      simp
    · simp [h]

theorem fmtDigits_head (fuel u : Nat) (hu : u < 10 ^ (fuel + 1)) :
    ∃ d cs, d < 10 ∧ fmtDigits fuel u [] = digitByte d :: cs := by
  induction fuel generalizing u with
  | zero => exact ⟨u, [], by simpa using hu, rfl⟩
  | succ k ih =>
    unfold fmtDigits
    by_cases h : u ≥ 10
    · simp only [h, if_true]
      have hlt : u / 10 < 10 ^ (k + 1) := by
        rw [Nat.div_lt_iff_lt_mul (by norm_num)]
        simpa [pow_succ] using hu
      obtain ⟨d, cs, hd, hcs⟩ := ih (u / 10) hlt
      rw [fmtDigits_append, hcs]
      exact ⟨d, cs ++ [digitByte (u - u / 10 * 10)], hd, rfl⟩
    · simp only [h, if_false]
      exact ⟨u, [], by omega, rfl⟩

theorem parseUintLoop_digit (fn s0 : String) (d n : Nat) (cs : List Char)
    (hd : d < 10) (hn : n * 10 + d ≤ maxVal32) :
    parseUintLoop fn s0 (digitByte d :: cs) n = parseUintLoop fn s0 cs (n * 10 + d) := by
  have hmax : maxVal32 = 4294967295 := by decide
  have hcut : cutoff10 = 1844674407370955162 := by decide
  rw [hmax] at hn
  rw [parseUintLoop]
  simp only [digitByte_toNat d hd, hcut, hmax]
  have h1 : (48 ≤ 48 + d ∧ 48 + d ≤ 57) := by omega
  have h2 : 48 + d - 48 = d := by omega
  have h3 : ¬ d ≥ 10 := by omega
  have h4 : ¬ n ≥ 1844674407370955162 := by omega
  have h5 : n * 10 % 2 ^ 64 = n * 10 := Nat.mod_eq_of_lt (by norm_num; omega)
  have h6 : (n * 10 + d) % 2 ^ 64 = n * 10 + d := Nat.mod_eq_of_lt (by norm_num; omega)
  have h7 : ¬ (n * 10 + d < n * 10 ∨ n * 10 + d > 4294967295) := by omega
  simp only [h1, and_self, if_true, h2, h3, if_false, h4, h5, h6, h7]

theorem parseUintLoop_fmtDigits (fn s0 : String) (fuel u : Nat) (rest : List Char)
    (hu : u < 10 ^ (fuel + 1)) (hmax : u ≤ maxVal32) :
    parseUintLoop fn s0 (fmtDigits fuel u [] ++ rest) 0 = parseUintLoop fn s0 rest u := by
  induction fuel generalizing u rest with
  | zero =>
    have hu10 : u < 10 := by simpa using hu
    simp only [fmtDigits, List.singleton_append]
    rw [parseUintLoop_digit fn s0 u 0 rest hu10 (by omega)]
    simp
  | succ k ih =>
    unfold fmtDigits
    by_cases h : u ≥ 10
    · simp only [h, if_true]
      have hlt : u / 10 < 10 ^ (k + 1) := by
        rw [Nat.div_lt_iff_lt_mul (by norm_num)]
        simpa [pow_succ] using hu
      have hle : u / 10 ≤ maxVal32 := le_trans (Nat.div_le_self u 10) hmax
      rw [fmtDigits_append, List.append_assoc, ih (u / 10) _ hlt hle, List.singleton_append]
      have hd : u - u / 10 * 10 < 10 := by omega
      have hval : u / 10 * 10 + (u - u / 10 * 10) = u := by omega
      rw [parseUintLoop_digit fn s0 _ (u / 10) rest hd (by omega), hval]
    · simp only [h, if_false, List.singleton_append]
      rw [parseUintLoop_digit fn s0 u 0 rest (by omega) (by omega)]
      simp

theorem fmtDigits_fuel (fuel k u : Nat) (buf : List Char) (hu : u < 10 ^ (fuel + 1)) :
    fmtDigits (fuel + k) u buf = fmtDigits fuel u buf := by
  induction fuel generalizing u buf with
  | zero =>
    have hu10 : ¬ u ≥ 10 := by simpa using hu
    cases k with
    | zero => rfl
    | succ k => simp [fmtDigits, hu10]
  | succ n ih =>
    have hk : n + 1 + k = (n + k) + 1 := by omega
    rw [hk]
    unfold fmtDigits
    by_cases h : u ≥ 10
    · simp only [h, if_true]
      have hlt : u / 10 < 10 ^ (n + 1) := by
        rw [Nat.div_lt_iff_lt_mul (by norm_num)]
        simpa [pow_succ] using hu
      exact ih (u / 10) _ hlt
    · simp only [h, if_false]

theorem ParseUint_of_loop (l : List Char) (u : Nat) (hne : l ≠ [])
    (hloop : parseUintLoop "ParseUint" (String.mk l) l 0 = (u, none)) :
    ParseUint (String.mk l) = (u, none) := by
  have hs : String.mk l ≠ "" := by
    intro h
    exact hne (by simpa using congrArg String.data h)
  simp only [ParseUint, hs, if_false, hloop]

theorem ParseInt_of_digits (l : List Char) (u d : Nat) (cs : List Char)
    (hl : l = digitByte d :: cs) (hd : d < 10)
    (hloop : parseUintLoop "ParseUint" (String.mk l) l 0 = (u, none))
    (hu : u < 2 ^ 31) :
    ParseInt (String.mk l) = ((u : Int), none) := by
  have hP := ParseUint_of_loop l u (by simp [hl]) hloop
  obtain ⟨hplus, hminus⟩ := digitByte_ne_sign d hd
  subst hl
  have hu2 : ¬ u ≥ 2 ^ 31 := by omega
  simp only [ParseInt, hplus, hminus, or_self, if_false, hP, hu2, and_false, false_and]

theorem ParseInt_of_neg_digits (l : List Char) (u : Nat) (hne : l ≠ [])
    (hloop : parseUintLoop "ParseUint" (String.mk l) l 0 = (u, none))
    (hu : u ≤ 2 ^ 31) :
    ParseInt (String.mk ('-' :: l)) = (-(u : Int), none) := by
  have hP := ParseUint_of_loop l u hne hloop
  simp only [ParseInt]
  simp only [String.data, or_true, if_true, hP]
  simp
  omega

theorem ParseInt_formatInt (p : Int) (hp : IsInt32 p) :
    ParseInt (formatInt p) = (p, none) := by
  obtain ⟨hlo, hhi⟩ := hp
  have h21 : (2 : Nat) ^ 31 < 10 ^ (20 + 1) := by norm_num
  have hmax : maxVal32 = 4294967295 := by decide
  unfold formatInt
  by_cases hneg : p < 0
  · simp only [hneg, if_true]
    have hu : (-p).toNat ≤ 2 ^ 31 := by omega
    have hlt : (-p).toNat < 10 ^ (20 + 1) := lt_of_le_of_lt hu h21
    obtain ⟨d, cs, _, hcs⟩ := fmtDigits_head 20 (-p).toNat hlt
    have hloop := parseUintLoop_fmtDigits "ParseUint" (String.mk (fmtDigits 20 (-p).toNat []))
      20 (-p).toNat [] hlt (by rw [hmax]; omega)
    rw [List.append_nil] at hloop
    rw [ParseInt_of_neg_digits _ _ (by simp [hcs]) hloop hu]
    have : (((-p).toNat : Nat) : Int) = -p := Int.toNat_of_nonneg (by omega)
    rw [this, neg_neg]
  · simp only [hneg, if_false]
    have hu : p.toNat < 2 ^ 31 := by omega
    have hlt : p.toNat < 10 ^ (20 + 1) := lt_trans hu h21
    obtain ⟨d, cs, hd, hcs⟩ := fmtDigits_head 20 p.toNat hlt
    have hloop := parseUintLoop_fmtDigits "ParseUint" (String.mk (fmtDigits 20 p.toNat []))
      20 p.toNat [] hlt (by rw [hmax]; omega)
    rw [List.append_nil] at hloop
    rw [ParseInt_of_digits _ _ d cs hcs hd hloop hu]
    have : ((p.toNat : Nat) : Int) = p := Int.toNat_of_nonneg (by omega)
    rw [this]

theorem StartServer_of_parse_error {H : Type} (env : Env) (rt : Runtime H) (p : Int)
    (handler : H) (e : NumError) (he : (ParseInt (chosenPort env p)).2 = some e) :
    StartServer env rt p handler = (some (GoError.numError e), rt) := by
  unfold chosenPort at he
  simp only [StartServer, he]

theorem StartServer_of_parse_ok {H : Type} (env : Env) (rt : Runtime H) (p : Int)
    (handler : H) (he : (ParseInt (chosenPort env p)).2 = none) :
    StartServer env rt p handler =
      (rt.serve (":" ++ chosenPort env p) handler,
        { rt with calls := rt.calls ++ [(":" ++ chosenPort env p, handler)] }) := by
  unfold chosenPort at he
  simp only [StartServer, he, Runtime.ListenAndServe, chosenPort]

theorem chosenPort_of_set (env : Env) (p : Int) (e : String)
    (hset : env "PORT" = some e) (hne : e ≠ "") : chosenPort env p = e := by
  simp [chosenPort, GetPort, hset, hne]

theorem chosenPort_of_unset (env : Env) (p : Int)
    (henv : env "PORT" = none ∨ env "PORT" = some "") : chosenPort env p = formatInt p := by
  rcases henv with h | h <;> simp [chosenPort, GetPort, h]

theorem digitByte_eq_digitChar (d : Nat) (hd : d < 10) : digitByte d = Nat.digitChar d := by
  interval_cases d <;> rfl

theorem fmtDigits_eq_toDigitsCore (fuel u f : Nat) (buf : List Char)
    (hu : u < 10 ^ (fuel + 1)) (hf : u < f) :
    fmtDigits fuel u buf = Nat.toDigitsCore 10 f u buf := by
  induction fuel generalizing u f buf with
  | zero =>
    have hu10 : u < 10 := by simpa using hu
    obtain ⟨g, rfl⟩ : ∃ g, f = g + 1 := ⟨f - 1, by omega⟩
    have h0 : u / 10 = 0 := by omega
    have hm : u % 10 = u := by omega
    simp [fmtDigits, Nat.toDigitsCore, h0, hm, digitByte_eq_digitChar u hu10]
  | succ k ih =>
    obtain ⟨g, rfl⟩ : ∃ g, f = g + 1 := ⟨f - 1, by omega⟩
    unfold fmtDigits
    by_cases h : u ≥ 10
    · have hlt : u / 10 < 10 ^ (k + 1) := by
        rw [Nat.div_lt_iff_lt_mul (by norm_num)]
        simpa [pow_succ] using hu
      have hne : u / 10 ≠ 0 := by omega
      have hd : u - u / 10 * 10 = u % 10 := by omega
      simp only [h, if_true, Nat.toDigitsCore, hne, if_false, hd]
      rw [digitByte_eq_digitChar _ (Nat.mod_lt _ (by norm_num))]
      exact ih (u / 10) g _ hlt (by omega)
    · have hu10 : u < 10 := by omega
      have h0 : u / 10 = 0 := by omega
      have hm : u % 10 = u := by omega
      simp [h, Nat.toDigitsCore, h0, hm, digitByte_eq_digitChar u hu10]

theorem formatInt_eq_toString (p : Int) (hp : IsInt32 p) : formatInt p = toString p := by
  obtain ⟨hlo, hhi⟩ := hp
  have h21 : (2 : Nat) ^ 31 < 10 ^ (20 + 1) := by norm_num
  unfold formatInt
  cases p with
  | ofNat n =>
    have hneg : ¬ (Int.ofNat n < 0) := by simp
    simp only [hneg, if_false]
    have hn : n < 2 ^ 31 := by
      have : (n : Int) ≤ 2 ^ 31 - 1 := hhi
      omega
    show String.mk (fmtDigits 20 n []) = Nat.repr n
    rw [fmtDigits_eq_toDigitsCore 20 n (n + 1) [] (lt_trans hn h21) (by omega)]
    rfl
  | negSucc m =>
    have hneg : Int.negSucc m < 0 := Int.negSucc_lt_zero m
    simp only [hneg, if_true]
    have hm : m + 1 ≤ 2 ^ 31 := by
      have h1 : -(2 : Int) ^ 31 ≤ Int.negSucc m := hlo
      rw [Int.negSucc_eq] at h1
      omega
    have hto : (-Int.negSucc m).toNat = m + 1 := by
      simp [Int.neg_negSucc]
    rw [hto]
    show String.mk ('-' :: fmtDigits 20 (m + 1) []) = "-" ++ Nat.repr (m + 1)
    rw [fmtDigits_eq_toDigitsCore 20 (m + 1) (m + 1 + 1) [] (lt_of_le_of_lt hm h21) (by omega)]
    rfl

/-! ## Claims on `StartServer` -/

/-- C7: `StartServer` takes its bind address from the environment before the
default.  When `PORT` holds a non-empty value `e` that parses as a signed 32-bit
decimal integer, listen-and-serve is called once, with the address `:` followed
by `e` and with the caller's handler; when `PORT` is unset or empty, it is called
once with `:` followed by the decimal digits of the 32-bit default `p`, which
are those of `toString p` (a minus sign first when `p` is negative), and with
the caller's handler. -/
theorem C7_bind_address {H : Type} (env : Env) (rt : Runtime H) (p : Int) (handler : H) :
    (∀ e : String, env "PORT" = some e → e ≠ "" → (ParseInt e).2 = none →
      StartServer env rt p handler =
        (rt.serve (":" ++ e) handler,
          { rt with calls := rt.calls ++ [(":" ++ e, handler)] })) ∧
    (IsInt32 p → (env "PORT" = none ∨ env "PORT" = some "") →
      StartServer env rt p handler =
        (rt.serve (":" ++ toString p) handler,
          { rt with calls := rt.calls ++ [(":" ++ toString p, handler)] })) := by
  constructor
  · intro e hset hne hparse
    have hc := chosenPort_of_set env p e hset hne
    have := StartServer_of_parse_ok env rt p handler (by rw [hc]; exact hparse)
    rwa [hc] at this
  · intro hp henv
    have hc := chosenPort_of_unset env p henv
    have := StartServer_of_parse_ok env rt p handler
      (by rw [hc, ParseInt_formatInt p hp])
    rwa [hc, formatInt_eq_toString p hp] at this

/-- Witness of C7: `PORT=18080` with default 9000 binds `:18080`; an unset
`PORT` binds `:9000` with default 9000, `:8080` with default 8080, `:0` with
default 0, `:-5` with default -5 and `:2147483647` with the greatest default,
each with the caller's handler. -/
theorem C7_bind_address_witness :
    (envPort "18080" "PORT" = some "18080" ∧ "18080" ≠ "" ∧ (ParseInt "18080").2 = none ∧
      (StartServer (envPort "18080") rtIdle 9000 "mux").2.calls = [(":18080", "mux")]) ∧
    (IsInt32 9000 ∧ envUnset "PORT" = none ∧
      (StartServer envUnset rtIdle 9000 "mux").2.calls = [(":9000", "mux")]) ∧
    (StartServer envUnset rtIdle 8080 "mux").2.calls = [(":8080", "mux")] ∧
    (StartServer envUnset rtIdle 0 "mux").2.calls = [(":0", "mux")] ∧
    (StartServer envUnset rtIdle (-5) "mux").2.calls = [(":-5", "mux")] ∧
    (StartServer envUnset rtIdle 2147483647 "mux").2.calls = [(":2147483647", "mux")] := by
  refine ⟨⟨by decide, by decide, by decide, ?_⟩, ⟨by decide, rfl, ?_⟩, ?_, ?_, ?_, ?_⟩
  · rw [(C7_bind_address (envPort "18080") rtIdle 9000 "mux").1 "18080"
      (by decide) (by decide) (by decide)]
    decide
  · rw [(C7_bind_address envUnset rtIdle 9000 "mux").2 (by decide) (Or.inl rfl)]
    decide
  · rw [(C7_bind_address envUnset rtIdle 8080 "mux").2 (by decide) (Or.inl rfl)]
    decide
  · rw [(C7_bind_address envUnset rtIdle 0 "mux").2 (by decide) (Or.inl rfl)]
    decide
  · rw [(C7_bind_address envUnset rtIdle (-5) "mux").2 (by decide) (Or.inl rfl)]
    decide
  · rw [(C7_bind_address envUnset rtIdle 2147483647 "mux").2 (by decide) (Or.inl rfl)]
    decide

/-- C8: a port string that does not parse stops `StartServer` before the bind.
Whatever the default and the value of `PORT`: if the chosen port string fails
the base-10 signed 32-bit parse with error `e`, `StartServer` returns `e` and
listen-and-serve is not called; if it parses, listen-and-serve is called once
and its error is returned as it is; so listen-and-serve is called only when the
string parses.  `abc` fails with a syntax error and `2147483648` with a range
error. -/
theorem C8_parse_error_short_circuit {H : Type} (env : Env) (rt : Runtime H) (p : Int)
    (handler : H) :
    (∀ e : NumError, (ParseInt (chosenPort env p)).2 = some e →
      StartServer env rt p handler = (some (GoError.numError e), rt)) ∧
    ((ParseInt (chosenPort env p)).2 = none →
      StartServer env rt p handler =
        (rt.serve (":" ++ chosenPort env p) handler,
          { rt with calls := rt.calls ++ [(":" ++ chosenPort env p, handler)] })) ∧
    ((StartServer env rt p handler).2.calls ≠ rt.calls →
      (ParseInt (chosenPort env p)).2 = none) ∧
    StartServer (envPort "abc") rt p handler
      = (some (GoError.numError ⟨"ParseInt", "abc", StrconvErr.ErrSyntax⟩), rt) ∧
    StartServer (envPort "2147483648") rt p handler
      = (some (GoError.numError ⟨"ParseInt", "2147483648", StrconvErr.ErrRange⟩), rt) := by
  refine ⟨fun e he => StartServer_of_parse_error env rt p handler e he,
    fun he => StartServer_of_parse_ok env rt p handler he, ?_, ?_, ?_⟩
  · intro hcalls
    cases hparse : (ParseInt (chosenPort env p)).2 with
    | none => rfl
    | some e =>
      rw [StartServer_of_parse_error env rt p handler e hparse] at hcalls
      exact absurd rfl hcalls
  · exact StartServer_of_parse_error _ rt p handler _
      (by rw [chosenPort_of_set _ p "abc" (by decide) (by decide)]; decide)
  · exact StartServer_of_parse_error _ rt p handler _
      (by rw [chosenPort_of_set _ p "2147483648" (by decide) (by decide)]; decide)

/-- C10: the default can cause no port-parse error.  For every signed 32-bit
default `p`, zero, negative values and both extremes included, when `PORT` is
unset or empty the string that `StartServer` formats from `p` passes the signed
32-bit base-10 parse and parses back to `p`, and `StartServer` calls
listen-and-serve with the address `:` followed by that string; the range 1 to
65535 of TCP ports is not checked. -/
theorem C10_default_port_parses {H : Type} (env : Env) (rt : Runtime H) (p : Int)
    (handler : H) (hp : IsInt32 p) (henv : env "PORT" = none ∨ env "PORT" = some "") :
    ParseInt (formatInt p) = (p, none) ∧
    StartServer env rt p handler =
      (rt.serve (":" ++ formatInt p) handler,
        { rt with calls := rt.calls ++ [(":" ++ formatInt p, handler)] }) := by
  refine ⟨ParseInt_formatInt p hp, ?_⟩
  have hc := chosenPort_of_unset env p henv
  have := StartServer_of_parse_ok env rt p handler
    (by rw [hc, ParseInt_formatInt p hp])
  rwa [hc] at this

/-- Witness of C10: the least 32-bit default, with `PORT` set to the empty
string, reaches listen-and-serve with the address `:-2147483648`; so do 0, the
greatest 32-bit default and 70000 with `PORT` unset. -/
theorem C10_default_port_parses_witness :
    (IsInt32 (-2147483648) ∧ envPort "" "PORT" = some "" ∧
      ParseInt (formatInt (-2147483648)) = (-2147483648, none) ∧
      (StartServer (envPort "") rtIdle (-2147483648) "mux").2.calls
        = [(":-2147483648", "mux")]) ∧
    (StartServer envUnset rtIdle 0 "mux").2.calls = [(":0", "mux")] ∧
    (StartServer envUnset rtIdle 2147483647 "mux").2.calls = [(":2147483647", "mux")] ∧
    (StartServer envUnset rtIdle 70000 "mux").2.calls = [(":70000", "mux")] := by
  refine ⟨⟨by decide, by decide,
    (C10_default_port_parses (envPort "") rtIdle (-2147483648) "mux" (by decide)
      (Or.inr (by decide))).1, ?_⟩, ?_, ?_, ?_⟩
  · rw [(C10_default_port_parses (envPort "") rtIdle (-2147483648) "mux" (by decide)
      (Or.inr (by decide))).2]
    decide
  · rw [(C10_default_port_parses envUnset rtIdle 0 "mux" (by decide) (Or.inl rfl)).2]
    decide
  · rw [(C10_default_port_parses envUnset rtIdle 2147483647 "mux" (by decide) (Or.inl rfl)).2]
    decide
  · rw [(C10_default_port_parses envUnset rtIdle 70000 "mux" (by decide) (Or.inl rfl)).2]
    decide

/-! ## Lemmas on the JSON codec -/

theorem digitByte_isDigit (d : Nat) (hd : d < 10) : isDigit (digitByte d) = true := by
  simp [isDigit, digitByte_toNat d hd]
  omega

theorem readDigits_digit (d n : Nat) (cs : List Char) (hd : d < 10) :
    readDigits (digitByte d :: cs) n = readDigits cs (n * 10 + d) := by
  simp [readDigits, digitByte_isDigit d hd, digitByte_toNat d hd]

theorem readDigits_stop (rest : List Char) (n : Nat) (h : NoDigitHead rest) :
    readDigits rest n = (n, rest) := by
  cases rest with
  | nil => rfl
  | cons c cs => simp [readDigits, h c cs rfl]

theorem readDigits_fmtDigits (fuel u : Nat) (rest : List Char) (hu : u < 10 ^ (fuel + 1)) :
    readDigits (fmtDigits fuel u [] ++ rest) 0 = readDigits rest u := by
  induction fuel generalizing u rest with
  | zero =>
    have hu10 : u < 10 := by simpa using hu
    simp only [fmtDigits, List.singleton_append]
    rw [readDigits_digit u 0 rest hu10]
    simp
  | succ k ih =>
    unfold fmtDigits
    by_cases h : u ≥ 10
    · simp only [h, if_true]
      have hlt : u / 10 < 10 ^ (k + 1) := by
        rw [Nat.div_lt_iff_lt_mul (by norm_num)]
        simpa [pow_succ] using hu
      rw [fmtDigits_append, List.append_assoc, ih (u / 10) _ hlt, List.singleton_append]
      have hd : u - u / 10 * 10 < 10 := by omega
      have hval : u / 10 * 10 + (u - u / 10 * 10) = u := by omega
      rw [readDigits_digit _ (u / 10) rest hd, hval]
    · simp only [h, if_false, List.singleton_append]
      rw [readDigits_digit u 0 rest (by omega)]
      simp

theorem fmtDigits_head_pos (fuel u : Nat) (hu : u < 10 ^ (fuel + 1)) (h0 : u ≠ 0) :
    ∃ d cs, 0 < d ∧ d < 10 ∧ fmtDigits fuel u [] = digitByte d :: cs := by
  induction fuel generalizing u with
  | zero => exact ⟨u, [], by omega, by simpa using hu, rfl⟩
  | succ k ih =>
    unfold fmtDigits
    by_cases h : u ≥ 10
    · simp only [h, if_true]
      have hlt : u / 10 < 10 ^ (k + 1) := by
        rw [Nat.div_lt_iff_lt_mul (by norm_num)]
        simpa [pow_succ] using hu
      obtain ⟨d, cs, hd0, hd, hcs⟩ := ih (u / 10) hlt (by omega)
      rw [fmtDigits_append, hcs]
      exact ⟨d, cs ++ [digitByte (u - u / 10 * 10)], hd0, hd, rfl⟩
    · simp only [h, if_false]
      exact ⟨u, [], by omega, by omega, rfl⟩

theorem fmtDigits_zero (fuel : Nat) : fmtDigits fuel 0 [] = ['0'] := by
  cases fuel <;> rfl

theorem digitByte_ne_zero (d : Nat) (hd0 : 0 < d) (hd : d < 10) : digitByte d ≠ '0' := by
  interval_cases d <;> decide

theorem readNat_fmtDigits (fuel u : Nat) (rest : List Char) (hu : u < 10 ^ (fuel + 1))
    (hrest : NoDigitHead rest) :
    readNat (fmtDigits fuel u [] ++ rest) = some (u, rest) := by
  by_cases h0 : u = 0
  · subst h0
    rw [fmtDigits_zero]
    rfl
  · obtain ⟨d, cs, hd0, hd, hcs⟩ := fmtDigits_head_pos fuel u hu h0
    have hloop := readDigits_fmtDigits fuel u rest hu
    rw [hcs] at hloop ⊢
    rw [List.cons_append] at hloop ⊢
    rw [readDigits_digit d 0 _ hd, readDigits_stop rest u hrest] at hloop
    simp only [readNat, digitByte_ne_zero d hd0 hd, if_false, digitByte_isDigit d hd, if_true,
      digitByte_toNat d hd]
    have : 48 + d - 48 = 0 * 10 + d := by omega
    rw [this, hloop]

theorem readInt64_encodeInt (n : Int) (rest : List Char) (hn : IsInt64 n)
    (hrest : NoDigitHead rest) :
    readInt64 (encodeInt n ++ rest) = some (n, rest) := by
  obtain ⟨hlo, hhi⟩ := hn
  have h21 : (2 : Nat) ^ 63 < 10 ^ (20 + 1) := by norm_num
  unfold encodeInt formatInt
  by_cases hneg : n < 0
  · simp only [hneg, if_true]
    have hu : (-n).toNat ≤ 2 ^ 63 := by omega
    have hlt : (-n).toNat < 10 ^ (20 + 1) := lt_of_le_of_lt hu h21
    have hnat := readNat_fmtDigits 20 (-n).toNat rest hlt hrest
    have hcast : (((-n).toNat : Nat) : Int) = -n := Int.toNat_of_nonneg (by omega)
    simp only [List.cons_append, readInt64, if_true, hnat, hu]
    rw [hcast, neg_neg]
  · simp only [hneg, if_false]
    have hu : n.toNat < 2 ^ 63 := by omega
    have hlt : n.toNat < 10 ^ (20 + 1) := lt_trans hu h21
    have hnat := readNat_fmtDigits 20 n.toNat rest hlt hrest
    obtain ⟨d, cs, hd, hcs⟩ := fmtDigits_head 20 n.toNat hlt
    have hcast : ((n.toNat : Nat) : Int) = n := Int.toNat_of_nonneg (by omega)
    rw [hcs] at hnat ⊢
    simp only [List.cons_append] at hnat ⊢
    simp only [readInt64, (digitByte_ne_sign d hd).2, if_false, hnat, hu, if_true]
    rw [hcast]


theorem hexVal_hexDigit (n : Nat) (hn : n < 16) : hexVal (hexDigit n) = some n := by
  interval_cases n <;> rfl

theorem hex4_low (b : Nat) (hb : b < 256) :
    hex4 '0' '0' (hexDigit (b / 16)) (hexDigit (b % 16)) = some b := by
  have h0 : hexVal '0' = some 0 := by rfl
  have h1 := hexVal_hexDigit (b / 16) (by omega)
  have h2 := hexVal_hexDigit (b % 16) (by omega)
  simp only [hex4, h0, h1, h2]
  congr 1
  omega

theorem hex4_separator (b : Nat) (hb : b = 8232 ∨ b = 8233) :
    hex4 '2' '0' '2' (hexDigit (b % 16)) = some b := by
  rcases hb with rfl | rfl <;> rfl

theorem char_ne_of_toNat_ne (c d : Char) (h : c.toNat ≠ d.toNat) : c ≠ d := by
  intro hcd
  exact h (by rw [hcd])

theorem readStringFrom_encodeChar (c : Char) (tail : List Char) :
    readStringFrom none (encodeChar (GoChar.rune c) ++ tail)
      = consRune c (readStringFrom none tail) := by
  have hq34 : ('"' : Char).toNat = 34 := by rfl
  have hb92 : ('\\' : Char).toNat = 92 := by rfl
  simp only [encodeChar]
  by_cases h128 : c.toNat < 128
  · simp only [h128, if_true]
    cases hsafe : htmlSafeSet c.toNat with
    | true =>
      simp only [if_true, List.singleton_append]
      simp only [htmlSafeSet, Bool.and_eq_true, decide_eq_true_eq, bne_iff_ne, ne_eq] at hsafe
      have hq : c ≠ '"' := char_ne_of_toNat_ne _ _ (by omega)
      have hb : c ≠ '\\' := char_ne_of_toNat_ne _ _ (by omega)
      have h32 : ¬ c.toNat < 32 := by omega
      rw [readStringFrom.eq_def]
      simp [hq, hb, h32, flushPending]
    | false =>
      simp only [Bool.false_eq_true, if_false]
      by_cases h1 : c = '\\' ∨ c = '"'
      · simp only [h1, if_true]
        rcases h1 with rfl | rfl
        · rw [readStringFrom.eq_def]; simp [unescape, flushPending]
        · rw [readStringFrom.eq_def]; simp [unescape, flushPending]
      · simp only [h1, if_false]
        by_cases h2 : c = '\n'
        · subst h2
          rw [readStringFrom.eq_def]; simp [unescape, flushPending]
        · by_cases h3 : c = '\r'
          · subst h3
            rw [readStringFrom.eq_def]; simp [unescape, flushPending]
          · by_cases h4 : c = '\t'
            · subst h4
              rw [readStringFrom.eq_def]; simp [unescape, flushPending]
            · simp only [h2, h3, h4, if_false, List.cons_append, List.nil_append]
              have hx := hex4_low c.toNat (by omega)
              have hns : ¬ (55296 ≤ c.toNat ∧ c.toNat < 57344) := by omega
              rw [readStringFrom.eq_def]
              simp [hx, hns, Char.ofNat_toNat]
  · simp only [h128, if_false]
    by_cases hsep : c.toNat = 8232 ∨ c.toNat = 8233
    · simp only [hsep, if_true, List.cons_append, List.nil_append]
      have hx := hex4_separator c.toNat hsep
      have hns : ¬ (55296 ≤ c.toNat ∧ c.toNat < 57344) := by omega
      rw [readStringFrom.eq_def]
      simp [hx, hns, Char.ofNat_toNat]
    · simp only [hsep, if_false, List.singleton_append]
      have hq : c ≠ '"' := char_ne_of_toNat_ne _ _ (by omega)
      have hb : c ≠ '\\' := char_ne_of_toNat_ne _ _ (by omega)
      have h32 : ¬ c.toNat < 32 := by omega
      rw [readStringFrom.eq_def]
      simp [hq, hb, h32, flushPending]

theorem readStringFrom_encodeChars (s : GoString) (rest : List Char) (hs : s.ValidUTF8) :
    readStringFrom none (encodeChars s ++ '"' :: rest) = some (s, rest) := by
  induction s with
  | nil =>
    rw [readStringFrom.eq_def]
    simp [encodeChars, flushPending]
  | cons x xs ih =>
    have hx : x.isRune = true := hs x (List.mem_cons_self x xs)
    have hxs : GoString.ValidUTF8 xs := fun y hy => hs y (List.mem_cons_of_mem x hy)
    cases x with
    | invalid b => simp [GoChar.isRune] at hx
    | rune c =>
      rw [encodeChars, List.append_assoc, readStringFrom_encodeChar, ih hxs]
      rfl

theorem readString_encodeString (s : GoString) (rest : List Char) (hs : s.ValidUTF8) :
    readString (encodeString s ++ rest) = some (s, rest) := by
  simp only [encodeString, List.cons_append, List.append_assoc, List.singleton_append,
    readString, if_true, readStringBody]
  exact readStringFrom_encodeChars s rest hs


theorem ValueHead.append {l : List Char} (h : ValueHead l) (r : List Char) :
    ValueHead (l ++ r) := by
  obtain ⟨c, cs, rfl, hc⟩ := h
  exact ⟨c, cs ++ r, rfl, hc⟩

theorem ValueHead.facts {l : List Char} (h : ValueHead l) :
    ∃ c cs, l = c :: cs ∧ isSpace c = false ∧ c ≠ 'n' ∧ c ≠ ']' ∧ c ≠ '[' := by
  obtain ⟨c, cs, rfl, hc⟩ := h
  refine ⟨c, cs, rfl, ?_⟩
  rcases hc with rfl | rfl | hd
  · decide
  · decide
  · simp only [isDigit, Bool.and_eq_true, decide_eq_true_eq] at hd
    have e1 : (' ' : Char).toNat = 32 := rfl
    have e2 : ('\t' : Char).toNat = 9 := rfl
    have e3 : ('\r' : Char).toNat = 13 := rfl
    have e4 : ('\n' : Char).toNat = 10 := rfl
    have e5 : ('n' : Char).toNat = 110 := rfl
    have e6 : (']' : Char).toNat = 93 := rfl
    have e7 : ('[' : Char).toNat = 91 := rfl
    have n1 : c ≠ ' ' := char_ne_of_toNat_ne _ _ (by omega)
    have n2 : c ≠ '\t' := char_ne_of_toNat_ne _ _ (by omega)
    have n3 : c ≠ '\r' := char_ne_of_toNat_ne _ _ (by omega)
    have n4 : c ≠ '\n' := char_ne_of_toNat_ne _ _ (by omega)
    refine ⟨by simp [isSpace, n1, n2, n3, n4], char_ne_of_toNat_ne _ _ (by omega),
      char_ne_of_toNat_ne _ _ (by omega), char_ne_of_toNat_ne _ _ (by omega)⟩

theorem skipSpace_of_valueHead {l : List Char} (h : ValueHead l) : skipSpace l = l := by
  obtain ⟨c, cs, rfl, hs, _⟩ := h.facts
  simp [skipSpace, hs]

theorem stripNull_cons_ne (c : Char) (cs : List Char) (hn : c ≠ 'n') :
    stripNull (c :: cs) = none := by
  rw [stripNull.eq_def]
  split
  · rename_i heq
    exact absurd (List.cons.inj heq).1 hn
  · rfl

theorem stripNull_of_valueHead {l : List Char} (h : ValueHead l) : stripNull l = none := by
  obtain ⟨c, cs, rfl, _, hn, _⟩ := h.facts
  exact stripNull_cons_ne c cs hn

theorem encodeInt_valueHead (n : Int) (hn : IsInt64 n) : ValueHead (encodeInt n) := by
  obtain ⟨hlo, hhi⟩ := hn
  have h21 : (2 : Nat) ^ 63 < 10 ^ (20 + 1) := by norm_num
  unfold encodeInt formatInt
  by_cases hneg : n < 0
  · simp only [hneg, if_true]
    exact ⟨'-', _, rfl, Or.inl rfl⟩
  · simp only [hneg, if_false]
    have hu : n.toNat < 2 ^ 63 := by omega
    obtain ⟨d, cs, hd, hcs⟩ := fmtDigits_head 20 n.toNat (lt_trans hu h21)
    exact ⟨digitByte d, cs, hcs, Or.inr (Or.inr (digitByte_isDigit d hd))⟩

theorem encodeString_valueHead (s : GoString) : ValueHead (encodeString s) :=
  ⟨'"', _, rfl, Or.inr (Or.inl rfl)⟩

theorem encodeElems_cons {α : Type} (enc : α → List Char) (x : α) (xs : List α) :
    ∃ tl, encodeElems enc (x :: xs) = enc x ++ tl := by
  cases xs with
  | nil => exact ⟨[], by simp [encodeElems]⟩
  | cons y ys => exact ⟨',' :: encodeElems enc (y :: ys), rfl⟩

theorem encodeElems_valueHead {α : Type} (enc : α → List Char) (x : α) (xs : List α)
    (hx : ValueHead (enc x)) : ValueHead (encodeElems enc (x :: xs)) := by
  obtain ⟨tl, htl⟩ := encodeElems_cons enc x xs
  rw [htl]
  exact hx.append tl

theorem length_le_encodeElems {α : Type} (enc : α → List Char) (xs : List α)
    (hhead : ∀ x ∈ xs, ValueHead (enc x)) : xs.length ≤ (encodeElems enc xs).length := by
  induction xs with
  | nil => simp
  | cons x xs ih =>
    obtain ⟨c, cs, hc, _⟩ := hhead x (List.mem_cons_self x xs)
    have ih2 := ih (fun y hy => hhead y (List.mem_cons_of_mem x hy))
    cases xs with
    | nil => simp [encodeElems, hc]
    | cons y ys =>
      simp only [encodeElems, hc, List.length_cons, List.length_append] at ih2 ⊢
      omega

theorem readElems_encodeElems {α : Type} (enc : α → List Char)
    (readElem : List Char → Option (α × List Char)) (xs : List α) (hne : xs ≠ [])
    (fuel : Nat) (hfuel : xs.length ≤ fuel) (rest : List Char)
    (hhead : ∀ x ∈ xs, ValueHead (enc x))
    (hread : ∀ x ∈ xs, ∀ r, readElem (enc x ++ ',' :: r) = some (x, ',' :: r) ∧
      readElem (enc x ++ ']' :: r) = some (x, ']' :: r)) :
    readElems readElem fuel (encodeElems enc xs ++ ']' :: rest) = some (xs, rest) := by
  induction xs generalizing fuel with
  | nil => exact absurd rfl hne
  | cons x xs ih =>
    obtain ⟨f, rfl⟩ : ∃ f, fuel = f + 1 := ⟨fuel - 1, by simp at hfuel; omega⟩
    have hx := hread x (List.mem_cons_self x xs)
    cases xs with
    | nil =>
      simp [encodeElems, readElems, (hx rest).2, skipSpace, isSpace]
    | cons y ys =>
      have hys : ∀ z ∈ y :: ys, ValueHead (enc z) :=
        fun z hz => hhead z (List.mem_cons_of_mem x hz)
      have hih := ih (by simp) f (by simp at hfuel ⊢; omega) hys
        (fun z hz => hread z (List.mem_cons_of_mem x hz))
      have hsk : skipSpace (encodeElems enc (y :: ys) ++ ']' :: rest)
          = encodeElems enc (y :: ys) ++ ']' :: rest :=
        skipSpace_of_valueHead ((encodeElems_valueHead enc y ys (hys y (List.mem_cons_self y ys))).append _)
      have henc : encodeElems enc (x :: y :: ys) ++ ']' :: rest
          = enc x ++ ',' :: (encodeElems enc (y :: ys) ++ ']' :: rest) := by
        simp [encodeElems]
      rw [henc, readElems, (hx _).1]
      simp [skipSpace, isSpace, hsk, hih]

theorem readSlice_encodeSlice {α : Type} (enc : α → List Char)
    (readElem : List Char → Option (α × List Char)) (xs : Option (List α)) (rest : List Char)
    (hhead : ∀ l, xs = some l → ∀ x ∈ l, ValueHead (enc x))
    (hread : ∀ l, xs = some l → ∀ x ∈ l, ∀ r,
      readElem (enc x ++ ',' :: r) = some (x, ',' :: r) ∧
      readElem (enc x ++ ']' :: r) = some (x, ']' :: r)) :
    readSlice readElem (encodeSlice enc xs ++ rest) = some (xs, rest) := by
  cases xs with
  | none => rfl
  | some l =>
    have hb : ('[' : Char) ≠ 'n' := by decide
    cases l with
    | nil =>
      simp [encodeSlice, encodeElems, readSlice, stripNull_cons_ne _ _ hb, skipSpace, isSpace]
    | cons x xs =>
      have hvh : ValueHead (encodeElems enc (x :: xs) ++ ']' :: rest) :=
        (encodeElems_valueHead enc x xs (hhead _ rfl x (List.mem_cons_self x xs))).append _
      have hsk := skipSpace_of_valueHead hvh
      have hlen := length_le_encodeElems enc (x :: xs) (hhead _ rfl)
      have hre := readElems_encodeElems enc readElem (x :: xs) (by simp)
        (encodeElems enc (x :: xs) ++ ']' :: rest).length
        (by simp only [List.length_append]; omega) rest (hhead _ rfl) (hread _ rfl)
      obtain ⟨c, cs, hc, _, _, hcb, _⟩ := hvh.facts
      simp only [encodeSlice, List.cons_append, List.append_assoc, List.singleton_append,
        List.nil_append, readSlice, stripNull_cons_ne _ _ hb, if_true, hsk]
      rw [hc] at hre ⊢
      simp only [hcb, if_false, hre]


theorem noDigitHead_cons (c : Char) (cs : List Char) (hc : isDigit c = false) :
    NoDigitHead (c :: cs) := by
  intro d ds h
  rw [← (List.cons.inj h).1]
  exact hc

theorem readIntElem_encodeInt (n : Int) (hn : IsInt64 n) (r : List Char) :
    readIntElem (encodeInt n ++ ',' :: r) = some (n, ',' :: r) ∧
    readIntElem (encodeInt n ++ ']' :: r) = some (n, ']' :: r) := by
  have hv := encodeInt_valueHead n hn
  constructor
  · simp only [readIntElem, stripNull_of_valueHead (hv.append _)]
    exact readInt64_encodeInt n _ hn (noDigitHead_cons _ _ (by decide))
  · simp only [readIntElem, stripNull_of_valueHead (hv.append _)]
    exact readInt64_encodeInt n _ hn (noDigitHead_cons _ _ (by decide))

theorem readStringElem_encodeString (s : GoString) (hs : s.ValidUTF8) (r : List Char) :
    readStringElem (encodeString s ++ r) = some (s, r) := by
  simp only [readStringElem, stripNull_of_valueHead ((encodeString_valueHead s).append _)]
  exact readString_encodeString s r hs

theorem skipSpace_cons (c : Char) (cs : List Char) (hc : isSpace c = false) :
    skipSpace (c :: cs) = c :: cs := by
  simp [skipSpace, hc]

theorem skipSpace_encodeSlice {α : Type} (enc : α → List Char) (xs : Option (List α))
    (r : List Char) : skipSpace (encodeSlice enc xs ++ r) = encodeSlice enc xs ++ r := by
  cases xs <;> exact skipSpace_cons _ _ (by decide)

theorem readMembers_comma (fuel : Nat) (key : GoString) (value rest : List Char)
    (t t1 : TestApiBody) (hkey : key.ValidUTF8)
    (hsk : skipSpace (value ++ ',' :: rest) = value ++ ',' :: rest)
    (hfield : readField key (value ++ ',' :: rest) t = some (t1, ',' :: rest)) :
    readMembers (fuel + 1) (encodeString key ++ ':' :: (value ++ ',' :: rest)) t
      = readMembers fuel (skipSpace rest) t1 := by
  rw [readMembers, readString_encodeString key _ hkey]
  simp [skipSpace, isSpace, hsk, hfield]

theorem readMembers_close (fuel : Nat) (key : GoString) (value rest : List Char)
    (t t1 : TestApiBody) (hkey : key.ValidUTF8)
    (hsk : skipSpace (value ++ '\x7d' :: rest) = value ++ '\x7d' :: rest)
    (hfield : readField key (value ++ '\x7d' :: rest) t = some (t1, '\x7d' :: rest)) :
    readMembers (fuel + 1) (encodeString key ++ ':' :: (value ++ '\x7d' :: rest)) t
      = some (t1, rest) := by
  rw [readMembers, readString_encodeString key _ hkey]
  simp [skipSpace, isSpace, hsk, hfield]

theorem readField_i64 (n : Int) (hn : IsInt64 n) (rest : List Char) (t : TestApiBody) :
    readField (GoString.ofString "i_64") (encodeInt n ++ ',' :: rest) t
      = some ({ t with Int := n }, ',' :: rest) := by
  have hv := encodeInt_valueHead n hn
  have hnd : NoDigitHead (',' :: rest) := noDigitHead_cons ',' rest (by decide)
  simp only [readField, if_true, stripNull_of_valueHead (hv.append _),
    readInt64_encodeInt n _ hn hnd]

theorem readField_str (s : GoString) (hs : s.ValidUTF8) (rest : List Char) (t : TestApiBody) :
    readField (GoString.ofString "str") (encodeString s ++ ',' :: rest) t
      = some ({ t with Str := s }, ',' :: rest) := by
  have hk : GoString.ofString "str" ≠ GoString.ofString "i_64" := by decide
  simp only [readField, hk, if_false, if_true,
    stripNull_of_valueHead ((encodeString_valueHead s).append _),
    readString_encodeString s _ hs]

theorem readField_a_int (xs : Option (List ℤ)) (hxs : ∀ l, xs = some l → ∀ x ∈ l, IsInt64 x)
    (rest : List Char) (t : TestApiBody) :
    readField (GoString.ofString "a_int") (encodeSlice encodeInt xs ++ ',' :: rest) t
      = some ({ t with AInt := xs }, ',' :: rest) := by
  have hk1 : GoString.ofString "a_int" ≠ GoString.ofString "i_64" := by decide
  have hk2 : GoString.ofString "a_int" ≠ GoString.ofString "str" := by decide
  have h := readSlice_encodeSlice encodeInt readIntElem xs (',' :: rest)
    (fun l hl x hx => encodeInt_valueHead x (hxs l hl x hx))
    (fun l hl x hx r => readIntElem_encodeInt x (hxs l hl x hx) r)
  simp only [readField, hk1, hk2, if_false, if_true, h]

theorem readField_a_str (xs : Option (List GoString))
    (hxs : ∀ l, xs = some l → ∀ s ∈ l, GoString.ValidUTF8 s)
    (rest : List Char) (t : TestApiBody) :
    readField (GoString.ofString "a_str") (encodeSlice encodeString xs ++ '\x7d' :: rest) t
      = some ({ t with AStr := xs }, '\x7d' :: rest) := by
  have hk1 : GoString.ofString "a_str" ≠ GoString.ofString "i_64" := by decide
  have hk2 : GoString.ofString "a_str" ≠ GoString.ofString "str" := by decide
  have hk3 : GoString.ofString "a_str" ≠ GoString.ofString "a_int" := by decide
  have h := readSlice_encodeSlice encodeString readStringElem xs ('\x7d' :: rest)
    (fun l _ x _ => encodeString_valueHead x)
    (fun l hl x hx r => ⟨readStringElem_encodeString x (hxs l hl x hx) _,
      readStringElem_encodeString x (hxs l hl x hx) _⟩)
  simp only [readField, hk1, hk2, hk3, if_false, if_true, h]

theorem Decode_encodeBody (v t : TestApiBody) (hv : v.WellTyped) (hu : v.ValidUTF8)
    (tail : List Char) :
    Decode (String.mk (encodeBody v ++ tail)) t = (none, v) := by
  obtain ⟨hint, hints0⟩ := hv
  obtain ⟨hstr, hstrs0⟩ := hu
  have hints : ∀ l, v.AInt = some l → ∀ x ∈ l, IsInt64 x := by
    intro l hl x hx
    rw [hl] at hints0
    exact hints0 x hx
  have hstrs : ∀ l, v.AStr = some l → ∀ x ∈ l, GoString.ValidUTF8 x := by
    intro l hl x hx
    rw [hl] at hstrs0
    exact hstrs0 x hx
  have hk1 : (GoString.ofString "i_64").ValidUTF8 := by decide
  have hk2 : (GoString.ofString "str").ValidUTF8 := by decide
  have hk3 : (GoString.ofString "a_int").ValidUTF8 := by decide
  have hk4 : (GoString.ofString "a_str").ValidUTF8 := by decide
  let m4 := encodeString (GoString.ofString "a_str") ++ ':' ::
    (encodeSlice encodeString v.AStr ++ '\x7d' :: tail)
  let m3 := encodeString (GoString.ofString "a_int") ++ ':' ::
    (encodeSlice encodeInt v.AInt ++ ',' :: m4)
  let m2 := encodeString (GoString.ofString "str") ++ ':' :: (encodeString v.Str ++ ',' :: m3)
  let m1 := encodeString (GoString.ofString "i_64") ++ ':' :: (encodeInt v.Int ++ ',' :: m2)
  have hbody : encodeBody v ++ tail = '\x7b' :: m1 := by
    simp [encodeBody, m1, m2, m3, m4, List.append_assoc]
  have hm (k : GoString) (r : List Char) : skipSpace (encodeString k ++ r) = encodeString k ++ r :=
    skipSpace_of_valueHead ((encodeString_valueHead k).append r)
  have h4 : ∀ f t0, readMembers (f + 1) m4 t0 = some ({ t0 with AStr := v.AStr }, tail) :=
    fun f t0 => readMembers_close f _ _ tail t0 _ hk4 (skipSpace_encodeSlice _ _ _)
      (readField_a_str v.AStr hstrs tail t0)
  have h3 : ∀ f t0, readMembers (f + 2) m3 t0
      = some ({ t0 with AInt := v.AInt, AStr := v.AStr }, tail) := by
    intro f t0
    rw [readMembers_comma (f + 1) _ _ m4 t0 _ hk3 (skipSpace_encodeSlice _ _ _)
      (readField_a_int v.AInt hints m4 t0), hm, h4]
  have h2 : ∀ f t0, readMembers (f + 3) m2 t0
      = some ({ t0 with Str := v.Str, AInt := v.AInt, AStr := v.AStr }, tail) := by
    intro f t0
    rw [readMembers_comma (f + 2) _ _ m3 t0 _ hk2 (hm _ _) (readField_str v.Str hstr m3 t0),
      hm, h3]
  have h1 : ∀ f t0, readMembers (f + 4) m1 t0 = some (v, tail) := by
    intro f t0
    rw [readMembers_comma (f + 3) _ _ m2 t0 _ hk1
      (skipSpace_of_valueHead ((encodeInt_valueHead v.Int hint).append _))
      (readField_i64 v.Int hint m2 t0), hm, h2]
  have hm1 : ∃ cs n, m1 = '"' :: cs ∧ ('"' :: cs).length = n + 4 := by
    refine ⟨_, (encodeInt v.Int ++ ',' :: m2).length + 3, rfl, ?_⟩
    simp [encodeString, encodeChars, GoString.ofString, encodeChar, htmlSafeSet]
  obtain ⟨cs, n, hcs, hlen⟩ := hm1
  have h1n := h1 n t
  rw [hcs] at h1n
  have s1 : skipSpace ('\x7b' :: '"' :: cs) = '\x7b' :: '"' :: cs :=
    skipSpace_cons _ _ (by decide)
  have s2 : skipSpace ('"' :: cs) = '"' :: cs := skipSpace_cons _ _ (by decide)
  have hq : ('"' : Char) ≠ '\x7d' := by decide
  simp only [Decode, hbody, hcs, s1, s2, if_true, hq, if_false, hlen, h1n]


theorem Decode_Marshal (v t : TestApiBody) (hv : v.WellTyped) (hu : v.ValidUTF8) (j : String)
    (hj : Marshal v = Except.ok j) : Decode j t = (none, v) := by
  have hj2 : j = String.mk (encodeBody v ++ []) := by
    simp only [Marshal, Except.ok.injEq] at hj
    rw [← hj, List.append_nil]
  rw [hj2]
  exact Decode_encodeBody v t hv hu []

/-! ## The round trip through `RequestToParams` -/

/-- C2 as stated fails on a string that is not valid UTF-8.  `json.Marshal`
serializes the value whose string is the byte `0xff`, writing `\ufffd` for the
byte; `RequestToParams` on a request with that body and a zero-valued target
returns no error and leaves the replacement character U+FFFD in the string of
the target, which is not the value that was serialized. -/
theorem C2_invalid_utf8_not_restored :
    Marshal tdInvalid
      = Except.ok "\x7b\"i_64\":0,\"str\":\"\\ufffd\",\"a_int\":null,\"a_str\":null\x7d" ∧
    RequestToParams Decode
        { Body := "\x7b\"i_64\":0,\"str\":\"\\ufffd\",\"a_int\":null,\"a_str\":null\x7d",
          BodyClosed := false }
        TestApiBody.zero
      = (none,
          { Body := "\x7b\"i_64\":0,\"str\":\"\\ufffd\",\"a_int\":null,\"a_str\":null\x7d",
            BodyClosed := true },
          { Int := 0, Str := [GoChar.rune (Char.ofNat 65533)], AInt := none, AStr := none }) ∧
    ({ Int := 0, Str := [GoChar.rune (Char.ofNat 65533)], AInt := none, AStr := none }
      : TestApiBody) ≠ tdInvalid := by
  refine ⟨rfl, ?_, by decide⟩
  decide

/-- C2, amended: for every `TestApiBody` value `v` whose strings are valid UTF-8
(its integers being of type `int64`), `RequestToParams` on a request whose body
is the JSON serialization of `v`, given a zero-valued target, returns no error,
leaves the target equal to `v` and releases the body stream. -/
theorem C2_request_roundtrip (v : TestApiBody) (hv : v.WellTyped) (hu : v.ValidUTF8)
    (j : String) (hj : Marshal v = Except.ok j) (r : Request) (hr : r.Body = j) :
    RequestToParams Decode r TestApiBody.zero = (none, { r with BodyClosed := true }, v) := by
  simp only [RequestToParams, hr, Decode_Marshal v TestApiBody.zero hv hu j hj]

/-- Witness of C2, amended: the request of `TestRequestToParams`. -/
theorem C2_request_roundtrip_witness :
    td.WellTyped ∧ td.ValidUTF8 ∧
    Marshal td = Except.ok tdJSON ∧
    RequestToParams Decode { Body := tdJSON, BodyClosed := false } TestApiBody.zero
      = (none, { Body := tdJSON, BodyClosed := true },
          { Int := -1, Str := GoString.ofString "test", AInt := some [1, 2, 3],
            AStr := some [GoString.ofString "one", GoString.ofString "two",
              GoString.ofString "three"] }) :=
  ⟨by decide, by decide, rfl,
    C2_request_roundtrip td (by decide) (by decide) tdJSON rfl
      { Body := tdJSON, BodyClosed := false } rfl⟩

end HttpUtil
